import Mathlib

/-!
Verification of the crypto-trader signal-fusion and risk-managed execution
engine against its natural-language specification.

Shallow embedding conventions:
* Python float arithmetic is modelled exactly over `ℚ` (every constant in the
  source is a decimal literal, so all computations are exact rationals).
* `round(x, d)` in Python uses banker's rounding (round half to even); it is
  modelled by `pyround d`.
* DynamoDB state (positions, balances) is modelled by explicit record lists;
  each Lambda invocation becomes a pure step function on an explicit state.
* Exceptions raised by bookkeeping calls (`put_item` etc.) are modelled by
  per-record failure flags: a raised exception aborts the rest of that
  record's processing, and the batch handler catches it and continues
  (the source deliberately never re-raises out of `handler`).
* Instrument pairs are drawn from the configured trading pairs
  (`btc_jpy`, `eth_jpy`, `xrp_jpy`), modelled by the inductive `Pair`.
-/

namespace CryptoTrader

/-! ## Python `round(x, ndigits)` — banker's rounding over ℚ -/

/-- Round half to even, the rounding used by Python's built-in `round`. -/
def roundHalfEven (x : ℚ) : ℤ :=
  if x - ⌊x⌋ < 1/2 then ⌊x⌋
  else if 1/2 < x - ⌊x⌋ then ⌊x⌋ + 1
  else if ⌊x⌋ % 2 = 0 then ⌊x⌋ else ⌊x⌋ + 1

/-- Python `round(x, d)` for `d` decimal digits. -/
def pyround (d : ℕ) (x : ℚ) : ℚ := (roundHalfEven (x * 10 ^ d) : ℚ) / 10 ^ d

/-! ## Shared instrument and signal types -/

/-- Configured trading pairs (TRADING_PAIRS: btc_jpy / eth_jpy / xrp_jpy). -/
inductive Pair
  | btc
  | eth
  | xrp
deriving DecidableEq, Repr

/-- Decision signal attached to each order message. -/
inductive Sig
  | BUY
  | SELL
  | HOLD
deriving DecidableEq, Repr

/-! ## Position monitor (services/position-monitor/handler.py) -/

namespace Monitor

/--
`calculate_trailing_stop(entry_price, current_price, current_sl, highest_price)`
from position-monitor/handler.py lines 239-286.  Returns the new stop-loss
price, or `none` when no raise is necessary.  (`current_price` is accepted but
unused by the source function, exactly as in the code.)
-/
def calculate_trailing_stop (entry_price current_price current_sl highest_price : ℚ) :
    Option ℚ :=
  if entry_price ≤ 0 ∨ highest_price ≤ 0 then none
  else
    let peak_pnl_pct := (highest_price - entry_price) / entry_price * 100
    if peak_pnl_pct < 3 then none
    else
      let trail_pct : ℚ :=
        if 12 ≤ peak_pnl_pct then 1
        else if 8 ≤ peak_pnl_pct then 1.2
        else if 5 ≤ peak_pnl_pct then 1.5
        else 2
      let new_sl := highest_price * (1 - trail_pct / 100)
      let breakeven := entry_price * 1.001
      let new_sl := max new_sl breakeven
      if current_sl < new_sl then some new_sl else none

/-- The persisted per-position state read and written by each monitoring
cycle: `stop_loss` and `highest_price` (both stored in DynamoDB). -/
structure MonState where
  stop_loss : ℚ
  highest_price : ℚ
deriving DecidableEq, Repr

/--
One monitoring cycle of `handler` (position-monitor/handler.py lines 31-158)
for a single open position and one observed price:
1. entry-price sanity guard: if `|entry - current| / current > 0.5` the
   position is skipped entirely;
2. `current ≤ stop_loss` → STOP_LOSS sell trigger (stop unchanged);
3. `current ≥ take_profit` → TAKE_PROFIT sell trigger (stop unchanged);
4. otherwise the peak is updated when exceeded (persisted via
   `update_highest_price`, which stores `round(価, 2)`), the trailing stop is
   computed, and adopted only when `new_sl and new_sl > stop_loss`
   (persisted via `update_stop_loss`, which stores `round(new_sl, 2)`).
-/
def monitor_step (entry_price take_profit : ℚ) (s : MonState) (current_price : ℚ) :
    MonState :=
  if 0 < entry_price ∧ 0 < current_price ∧
      1/2 < |entry_price - current_price| / current_price then s
  else if current_price ≤ s.stop_loss then s
  else if take_profit ≤ current_price then s
  else
    match calculate_trailing_stop entry_price current_price s.stop_loss
        (if s.highest_price < current_price then current_price else s.highest_price) with
    | some v =>
        if v ≠ 0 ∧ s.stop_loss < v then
          ⟨pyround 2 v,
           if s.highest_price < current_price then pyround 2 current_price
           else s.highest_price⟩
        else
          ⟨s.stop_loss,
           if s.highest_price < current_price then pyround 2 current_price
           else s.highest_price⟩
    | none =>
        ⟨s.stop_loss,
         if s.highest_price < current_price then pyround 2 current_price
         else s.highest_price⟩

/-- Monitoring a position over a sequence of observed prices. -/
def monitor_run (entry_price take_profit : ℚ) (s : MonState) (prices : List ℚ) :
    MonState :=
  prices.foldl (monitor_step entry_price take_profit) s

/-- Initial monitor state of a freshly saved position: `stop_loss` defaults to
`entry × 0.95` and `highest_price` to `entry` (handler.py lines 50 and 104). -/
def monitor_init (entry_price : ℚ) : MonState := ⟨entry_price * 0.95, entry_price⟩

end Monitor

/-! ## Aggregator (services/aggregator/handler.py) -/

namespace Aggregator

/-- Component weights (aggregator/handler.py lines 40-43, env defaults). -/
def TECHNICAL_WEIGHT : ℚ := 0.35

def CHRONOS_WEIGHT : ℚ := 0.35

def SENTIMENT_WEIGHT : ℚ := 0.15

def MARKET_CONTEXT_WEIGHT : ℚ := 0.15

def BASE_BUY_THRESHOLD : ℚ := 0.25

def BASE_SELL_THRESHOLD : ℚ := -0.13

def BASELINE_BB_WIDTH : ℚ := 0.03

def VOL_CLAMP_MIN : ℚ := 0.67

def VOL_CLAMP_MAX : ℚ := 2.0

def TF_ALIGNMENT_BONUS : ℚ := 1.15

def TF_MISALIGN_PENALTY : ℚ := 0.85

/-- Analysis timeframes (trading_common.py TIMEFRAME_CONFIG keys). -/
inductive TF
  | m15
  | h1
  | h4
  | d1
deriving DecidableEq, Repr

/-- Multi-TF aggregation weights (trading_common.py TIMEFRAME_WEIGHTS). -/
def TIMEFRAME_WEIGHTS : TF → ℚ
  | .m15 => 0.20
  | .h1 => 0.35
  | .h4 => 0.30
  | .d1 => 0.15

/-- Per-timeframe staleness bound in seconds (aggregator/handler.py TF_STALENESS). -/
def TF_STALENESS : TF → ℤ
  | .m15 => 20 * 60
  | .h1 => 75 * 60
  | .h4 => 5 * 3600
  | .d1 => 26 * 3600

/-- Per-timeframe BB-width baselines (trading_common.py `bb_baseline`). -/
def tf_bb_baseline : TF → ℚ
  | .m15 => 0.030
  | .h1 => 0.045
  | .h4 => 0.070
  | .d1 => 0.120

def ACTIVE_TIMEFRAMES : List TF := [.m15, .h1, .h4, .d1]

/-! ### score_pair: confidence-weighted four-component fusion (lines 573-708) -/

/-- Chronos confidence filter (lines 597-606): scores with confidence below
0.3 are damped by `confidence / 0.3`. -/
def chronos_damped (chronos_score chronos_confidence : ℚ) : ℚ :=
  if chronos_confidence < 0.3 then chronos_score * (chronos_confidence / 0.3)
  else chronos_score

/-- Confidence-based dynamic weight shift (lines 646-647):
`(confidence - 0.5) * 0.16` clamped to `±0.08`. -/
def weight_shift (chronos_confidence : ℚ) : ℚ :=
  max (-0.08) (min 0.08 ((chronos_confidence - 0.5) * 0.16))

def effective_chronos_weight (chronos_confidence : ℚ) : ℚ :=
  CHRONOS_WEIGHT + weight_shift chronos_confidence

def effective_tech_weight (chronos_confidence : ℚ) : ℚ :=
  TECHNICAL_WEIGHT - weight_shift chronos_confidence

/-- The forecast (Chronos) component's contribution to the fused score:
damped score times confidence-shifted weight. -/
def chronos_contribution (chronos_score chronos_confidence : ℚ) : ℚ :=
  chronos_damped chronos_score chronos_confidence *
    effective_chronos_weight chronos_confidence

/-- BTC-dominance adjustment for altcoins (lines 625-633): dominance above 60
penalises non-BTC pairs by 0.05, below 40 grants +0.05. -/
def alt_dominance_adjustment (btc_dominance : Option ℚ) (is_btc : Bool) : ℚ :=
  match btc_dominance with
  | none => 0
  | some dom =>
      if is_btc then 0
      else if 60 < dom then -0.05
      else if dom < 40 then 0.05
      else 0

/-- Fused total score of `score_pair` (lines 652-662): four-component weighted
sum plus the alt-dominance adjustment, clamped to `[-1, 1]`.  `sentiment_raw`
arrives on `[0, 1]` and is remapped by `(x - 0.5) * 2`. -/
def score_pair_total (technical_score chronos_score sentiment_raw
    chronos_confidence market_score alt_adj : ℚ) : ℚ :=
  let sentiment_normalized := (sentiment_raw - 0.5) * 2
  max (-1) (min 1
    (technical_score * effective_tech_weight chronos_confidence +
     chronos_contribution chronos_score chronos_confidence +
     sentiment_normalized * SENTIMENT_WEIGHT +
     market_score * MARKET_CONTEXT_WEIGHT +
     alt_adj))

/-! ### Multi-timeframe aggregation (lines 341-570) -/

/-- One stored per-TF score row (tf-scores table), as read back. -/
structure TFScoreRow where
  timestamp : ℤ
  total_score : ℚ
deriving DecidableEq, Repr

/-- `_read_all_tf_scores` staleness filter (lines 365-370): a row whose age
`now - ts` exceeds the per-timeframe staleness bound is dropped. -/
def _read_all_tf_scores (now : ℤ) (rows : TF → Option TFScoreRow) :
    TF → Option ℚ :=
  fun tf =>
    match rows tf with
    | none => none
    | some row =>
        if TF_STALENESS tf < now - row.timestamp then none
        else some row.total_score

/-- Result alignment label in `_calculate_multi_tf_score`. -/
inductive Alignment
  | aligned
  | mixed
  | conflicting
  | unknown
deriving DecidableEq, Repr

/-- The aggregated result fields relevant to the claims. -/
structure ScoredResult where
  total_score : ℚ
  alignment : Alignment
  available_timeframes : List TF
deriving DecidableEq, Repr

/-- `_neutral_scored_result` (lines 548-570): neutral score explicitly
flagged — alignment `unknown`, no available timeframes. -/
def _neutral_scored_result : ScoredResult := ⟨0, .unknown, []⟩

/-- Available timeframes: those with a (fresh) score present. -/
def tf_available (scores : TF → Option ℚ) : List TF :=
  ACTIVE_TIMEFRAMES.filter (fun tf => (scores tf).isSome)

/-- Total weight of the available timeframes (before re-normalization). -/
def tf_total_weight (scores : TF → Option ℚ) : ℚ :=
  ((tf_available scores).map TIMEFRAME_WEIGHTS).sum

/-- Weighted average score over available TFs with re-normalized weights
(lines 439-445). -/
def tf_weighted_score (scores : TF → Option ℚ) : ℚ :=
  ((tf_available scores).map
    (fun tf => (scores tf).getD 0 * (TIMEFRAME_WEIGHTS tf / tf_total_weight scores))).sum

/-- Directional sign of a TF score (lines 448-450). -/
def tf_direction (s : ℚ) : ℤ :=
  if 0.02 < s then 1 else if s < -0.02 then -1 else 0

/-- Majority-direction agreement ratio (lines 451-454). -/
def tf_agreement (scores : TF → Option ℚ) : ℚ :=
  let dirs := (tf_available scores).map (fun tf => tf_direction ((scores tf).getD 0))
  let positive := (dirs.filter (fun d => decide (0 < d))).length
  let negative := (dirs.filter (fun d => decide (d < 0))).length
  ((max positive negative : ℕ) : ℚ) / (dirs.length : ℚ)

/-- `_calculate_multi_tf_score` (lines 423-545), restricted to the fields the
claims are about: weighted average over fresh TFs, agreement bonus/penalty,
alt-dominance adjustment, and the final clamp to `[-1, 1]`. -/
def _calculate_multi_tf_score (scores : TF → Option ℚ)
    (btc_dominance : Option ℚ) (is_btc : Bool) : ScoredResult :=
  let avail := tf_available scores
  if avail = [] then _neutral_scored_result
  else
    let weighted_score := tf_weighted_score scores
    let agreement := tf_agreement scores
    let adjusted :=
      if 3/4 ≤ agreement then weighted_score * TF_ALIGNMENT_BONUS
      else if agreement ≤ 1/2 then weighted_score * TF_MISALIGN_PENALTY
      else weighted_score
    let alignment : Alignment :=
      if 3/4 ≤ agreement then .aligned
      else if agreement ≤ 1/2 then .conflicting
      else .mixed
    let final_score :=
      max (-1) (min 1 (adjusted + alt_dominance_adjustment btc_dominance is_btc))
    ⟨final_score, alignment, avail⟩

/-! ### Volatility/F&G threshold calibration (lines 788-879) -/

/-- BUY-threshold absolute ceiling (line 798, env default). -/
def BUY_THRESHOLD_CAP : ℚ := 0.45

/-- Fear & Greed BUY adder (lines 793-833): +0.06 in Extreme Fear
(`fng ≤ 20`), +0.04 in Extreme Greed (`fng ≥ 80`), else 0; 0 when no market
context is available. -/
def fng_buy_adder (fng_value : Option ℤ) : ℚ :=
  match fng_value with
  | none => 0
  | some v => if v ≤ 20 then 0.06 else if 80 ≤ v then 0.04 else 0

/-- Volatility correction factor: `bb_width / meta_baseline` clamped to
`[VOL_CLAMP_MIN, VOL_CLAMP_MAX]` (lines 857-858). -/
def vol_clamped (bb_width meta_baseline : ℚ) : ℚ :=
  max VOL_CLAMP_MIN (min VOL_CLAMP_MAX (bb_width / meta_baseline))

/-- Per-pair BUY threshold (lines 861-867): `BASE_BUY × vol + adder`, capped
at `BUY_THRESHOLD_CAP`, stored rounded to 4 decimals. -/
def buy_threshold_for (bb_width meta_baseline adder : ℚ) : ℚ :=
  pyround 4 (min (BASE_BUY_THRESHOLD * vol_clamped bb_width meta_baseline + adder)
    BUY_THRESHOLD_CAP)

/-- Per-pair SELL threshold (lines 863-867): `BASE_SELL × vol`, no macro
correction, stored rounded to 4 decimals. -/
def sell_threshold_for (bb_width meta_baseline : ℚ) : ℚ :=
  pyround 4 (BASE_SELL_THRESHOLD * vol_clamped bb_width meta_baseline)

/-- `calculate_per_currency_thresholds` (lines 801-879) over a list of scored
pairs, each with its BB width and meta baseline; returns `(pair, buy, sell)`.
The F&G adder is computed once from market context and shared by all pairs. -/
def calculate_per_currency_thresholds (scored : List (Pair × ℚ × ℚ))
    (fng_value : Option ℤ) : List (Pair × ℚ × ℚ) :=
  scored.map (fun x =>
    (x.1, buy_threshold_for x.2.1 x.2.2 (fng_buy_adder fng_value),
     sell_threshold_for x.2.1 x.2.2))

/-! ### Decision state machine (lines 882-935) -/

/-- Pure per-pair classification: BUY when `score ≥ buy_t`, SELL when
`score ≤ sell_t`, HOLD otherwise (lines 907-912). -/
def decide_signal (score buy_t sell_t : ℚ) : Sig :=
  if buy_t ≤ score then .BUY
  else if score ≤ sell_t then .SELL
  else .HOLD

/-- `decide_per_currency_signals` (lines 882-935): classify every scored pair
against its per-currency thresholds (base thresholds when a pair has no entry
in the thresholds map); the decision uses no position information. -/
def decide_per_currency_signals (scored : List (Pair × ℚ))
    (thresholds : List (Pair × ℚ × ℚ)) : List (Pair × Sig) :=
  scored.map (fun x =>
    let th := ((thresholds.find? (fun t => decide (t.1 = x.1))).map
      (fun t => t.2)).getD (BASE_BUY_THRESHOLD, BASE_SELL_THRESHOLD)
    (x.1, decide_signal x.2 th.1 th.2))

end Aggregator

/-! ## Order executor (services/order-executor/handler.py) -/

namespace Executor

/-- Sizing / risk constants (handler.py lines 47-97, env defaults). -/
def MAX_POSITION_JPY : ℚ := 15000

def MIN_ORDER_JPY : ℚ := 500

def TAKER_FEE_RATE : ℚ := 0

def MIN_TRADES_FOR_KELLY : ℕ := 5

def KELLY_SAFETY_FACTOR : ℚ := 0.5

def KELLY_MIN_FRACTION : ℚ := 0.10

def KELLY_MAX_FRACTION : ℚ := 0.80

def CB_DAILY_LOSS_LIMIT_JPY : ℚ := 15000

def CB_MAX_CONSECUTIVE_LOSSES : ℕ := 5

def CB_COOLDOWN_HOURS : ℚ := 6

/-- Fallback score-band table (lines 85-90): first matching band wins. -/
def FALLBACK_SCORE_THRESHOLDS : List (ℚ × ℚ) :=
  [(0.45, 0.60), (0.35, 0.45), (0.25, 0.30), (0.15, 0.20)]

/-- A stored position row, as kept in the positions table. -/
structure PosRecord where
  pair : Pair
  closed : Bool
  entry_price : ℚ
  exit_price : ℚ
  amount : ℚ
  exit_time : ℤ
deriving DecidableEq, Repr

/-! ### Trade statistics for the Kelly sizer (lines 272-329) -/

/-- Output of `get_trade_statistics` (the fields the sizer reads). -/
structure TradeStats where
  total_trades : ℕ
  win_rate : ℚ
  avg_win_pct : ℚ
  avg_loss_pct : ℚ
deriving DecidableEq, Repr

/-- The P/L percentages collected by `get_trade_statistics` (lines 292-311):
for every configured pair, every closed position with truthy `exit_time` and
`exit_price`, exit within the trailing 90 days, and positive entry price,
contributes `(exit - entry) / entry × 100`. -/
def closed_pnl_pcts (cfg : List Pair) (recs : List PosRecord) (now : ℤ) : List ℚ :=
  (cfg.map (fun c =>
    (recs.filter (fun r =>
      decide (r.pair = c) && r.closed && decide (r.exit_time ≠ 0) &&
      decide (r.exit_price ≠ 0) && decide (now - 90 * 86400 < r.exit_time) &&
      decide (0 < r.entry_price))).map
    (fun r => (r.exit_price - r.entry_price) / r.entry_price * 100))).flatten

/-- `get_trade_statistics` (lines 272-329): win rate and average win/loss
percentages over the trailing-90-day closed positions of ALL configured
pairs.  When no positions qualify the source returns `{'total_trades': 0}`
(the remaining fields are then never read by the sizer). -/
def get_trade_statistics (cfg : List Pair) (recs : List PosRecord) (now : ℤ) :
    TradeStats :=
  let pnls := closed_pnl_pcts cfg recs now
  if pnls = [] then ⟨0, 0, 0, 0⟩
  else
    let wins := pnls.filter (fun p => decide (0 < p))
    let losses := (pnls.filter (fun p => decide (p ≤ 0))).map (fun p => |p|)
    ⟨pnls.length,
     (wins.length : ℚ) / (pnls.length : ℚ),
     if wins = [] then 0 else wins.sum / (wins.length : ℚ),
     if losses = [] then 0 else losses.sum / (losses.length : ℚ)⟩

/-- Modelled from the spec: «the trailing 90-day TradeRecord history for that
instrument (win rate, average winning %, average losing %)» — the same
statistics restricted to the single instrument being bought.  This definition
exists only to compare the spec's per-instrument reading with the source's
cross-instrument `get_trade_statistics`. -/
def get_trade_statistics_spec (instrument : Pair) (recs : List PosRecord)
    (now : ℤ) : TradeStats :=
  get_trade_statistics [instrument] recs now

/-! ### Kelly position sizing (lines 332-443) -/

/-- Full Kelly fraction `(p·b - q) / b` with `b = avg_win% / avg_loss%`
(lines 371-374). -/
def kelly_full_of (stats : TradeStats) : ℚ :=
  let b := stats.avg_win_pct / stats.avg_loss_pct
  (stats.win_rate * b - (1 - stats.win_rate)) / b

/-- Steps 2-4 of `calculate_order_amount` (lines 369-392): minimum fraction on
non-positive Kelly, Half-Kelly otherwise, linear score modulation clamped to
`[0.3, 1.0]`, and the final clamp to `[KELLY_MIN_FRACTION, KELLY_MAX_FRACTION]`. -/
def kelly_adjusted_fraction (stats : TradeStats) (score : ℚ) : ℚ :=
  max KELLY_MIN_FRACTION (min KELLY_MAX_FRACTION
    ((if kelly_full_of stats ≤ 0 then KELLY_MIN_FRACTION
      else kelly_full_of stats * KELLY_SAFETY_FACTOR) *
      min 1 (max 0.3 ((score - 0.10) / 0.40))))

/-- The common tail of both sizing functions (lines 397-411 and 429-443):
fee correction, `MAX_POSITION_JPY` cap, and rejection to 0 below
`MIN_ORDER_JPY`. -/
def finalize_order_amount (amount : ℚ) : ℚ :=
  if min (if 0 < TAKER_FEE_RATE then amount / (1 + TAKER_FEE_RATE) else amount)
      MAX_POSITION_JPY < MIN_ORDER_JPY then 0
  else
    min (if 0 < TAKER_FEE_RATE then amount / (1 + TAKER_FEE_RATE) else amount)
      MAX_POSITION_JPY

/-- First-match lookup in the fallback band table (lines 419-423). -/
def fallback_lookup : List (ℚ × ℚ) → ℚ → ℚ
  | [], _ => 0
  | (t, r) :: rest, score => if t ≤ score then r else fallback_lookup rest score

/-- `_calculate_order_amount_fallback` (lines 414-443). -/
def _calculate_order_amount_fallback (score available_jpy : ℚ) : ℚ :=
  let r := fallback_lookup FALLBACK_SCORE_THRESHOLDS score
  if r = 0 then 0 else finalize_order_amount (available_jpy * r)

/-- `calculate_order_amount` (lines 332-411), with the trade statistics it
fetches passed explicitly: fallback below `MIN_TRADES_FOR_KELLY` trades or
when there are no losing trades, else the Kelly pipeline. -/
def calculate_order_amount (stats : TradeStats) (score available_jpy : ℚ) : ℚ :=
  if stats.total_trades < MIN_TRADES_FOR_KELLY then
    _calculate_order_amount_fallback score available_jpy
  else if stats.avg_loss_pct = 0 then
    _calculate_order_amount_fallback score available_jpy
  else
    finalize_order_amount (available_jpy * kelly_adjusted_fraction stats score)

/-! ### Circuit breaker (lines 1057-1148) -/

/-- A closed-position P/L event collected by `check_circuit_breaker`. -/
structure CBEvent where
  exit_time : ℤ
  pnl : ℚ
deriving DecidableEq, Repr

/-- Collection step (lines 1076-1098): for every configured pair, every closed
position with truthy `exit_time`/`exit_price` whose exit lies inside the
trailing 24 hours contributes `pnl = (exit - entry) × amount`. -/
def cb_collect (cfg : List Pair) (recs : List PosRecord) (now : ℤ) : List CBEvent :=
  (cfg.map (fun c =>
    (recs.filter (fun r =>
      decide (r.pair = c) && r.closed && decide (r.exit_time ≠ 0) &&
      decide (r.exit_price ≠ 0) && decide (now - 86400 < r.exit_time))).map
    (fun r => ⟨r.exit_time, (r.exit_price - r.entry_price) * r.amount⟩))).flatten

/-- Stable insertion keeping existing order among equal exit times. -/
def cb_insert (e : CBEvent) : List CBEvent → List CBEvent
  | [] => [e]
  | x :: xs => if x.exit_time ≤ e.exit_time then x :: cb_insert e xs else e :: x :: xs

/-- Stable sort by `exit_time` ascending (line 1104, Python's stable sort). -/
def cb_sort (l : List CBEvent) : List CBEvent :=
  l.foldl (fun acc e => cb_insert e acc) []

/-- The chronologically sorted trailing-24h closed-position events. -/
def cb_events (cfg : List Pair) (recs : List PosRecord) (now : ℤ) : List CBEvent :=
  cb_sort (cb_collect cfg recs now)

/-- Consecutive losses counted backward from the most recent closed trade
(lines 1115-1120). -/
def consecutive_losses (l : List CBEvent) : ℕ :=
  (l.reverse.takeWhile (fun e => decide (e.pnl < 0))).length

/-- The most recent closed-position event (`closed_positions[-1]`). -/
def cb_last (l : List CBEvent) : CBEvent := l.reverse.headD ⟨0, 0⟩

/-- `check_circuit_breaker` (lines 1057-1148): trip on trailing-24h realized
loss beyond the daily limit, on a loss streak reaching the maximum, or —
when the streak is at least the maximum minus one — within the cooldown
window after the most recent closed trade.  Returns `false` on no events. -/
def check_circuit_breaker (cfg : List Pair) (recs : List PosRecord) (now : ℤ)
    (lossLimit : ℚ) (maxLosses : ℕ) (cooldownHours : ℚ) : Bool :=
  let evs := cb_events cfg recs now
  if evs = [] then false
  else
    let daily_pnl := (evs.map (fun e => e.pnl)).sum
    if daily_pnl < -lossLimit then true
    else
      let cl := consecutive_losses evs
      if maxLosses ≤ cl then true
      else if maxLosses ≤ cl + 1 then
        decide (((now - (cb_last evs).exit_time : ℤ) : ℚ) < cooldownHours * 3600)
      else false

/-! ### Batch execution state machine (lines 114-198, 446-701) -/

/-- A fill actually placed against the exchange within the batch. -/
inductive Fill
  | buy (p : Pair)
  | sell (p : Pair)
deriving DecidableEq, Repr

/-- One SQS order record, with its environment collapsed into flags:
`orderOk` — the BUY sizing/balance checks pass and the market order succeeds;
`fillAmount` — crypto amount the BUY fill yields;
`failPos` — `save_position` raises; `failTrade` — `save_trade` raises
(either exception is caught by `handler`, lines 126-139);
`sellOk` — the SELL amount checks pass and the market sell succeeds. -/
structure OrderRec where
  pair : Pair
  signal : Sig
  orderOk : Bool
  fillAmount : ℚ
  failPos : Bool
  failTrade : Bool
  sellOk : Bool
deriving DecidableEq, Repr

/-- Durable + per-invocation executor state: open positions (pair, amount),
exchange crypto balances, the `_just_bought_pairs` set, and the fills placed
during the batch. -/
structure ExecState where
  openPos : List (Pair × ℚ)
  balance : List (Pair × ℚ)
  justBought : List Pair
  fills : List Fill
deriving DecidableEq, Repr

/-- Crypto balance of a pair's currency (0 when absent). -/
def getBal (l : List (Pair × ℚ)) (p : Pair) : ℚ :=
  ((l.find? (fun e => decide (e.1 = p))).map (fun e => e.2)).getD 0

/-- Open-position lookup (`get_position`, lines 201-213). -/
def lookupOpen (l : List (Pair × ℚ)) (p : Pair) : Option ℚ :=
  (l.find? (fun e => decide (e.1 = p))).map (fun e => e.2)

/-- Minimum order amount of a currency (CURRENCY_ORDER_RULES `min_amount`;
0.001 for the default currencies used here). -/
def MIN_CRYPTO_AMOUNT : ℚ := 0.001

/-- `execute_buy` (lines 446-561): duplicate-holding guard on the exchange
balance (lines 475-487), then the market order, then bookkeeping —
`save_position`, `save_trade`, and finally the `_just_bought_pairs` entry
(lines 538-545); an exception at either save aborts the rest (caught by the
batch handler), leaving the fill in place. -/
def execute_buy (s : ExecState) (o : OrderRec) : ExecState :=
  if o.orderOk = false then s
  else if 0 < getBal s.balance o.pair ∧ MIN_CRYPTO_AMOUNT ≤ getBal s.balance o.pair then s
  else
    let s1 : ExecState :=
      { s with fills := s.fills ++ [Fill.buy o.pair],
               balance := (o.pair, getBal s.balance o.pair + o.fillAmount) :: s.balance }
    if o.failPos then s1
    else
      let s2 := { s1 with openPos := (o.pair, o.fillAmount) :: s1.openPos }
      if o.failTrade then s2
      else { s2 with justBought := o.pair :: s2.justBought }

/-- `execute_sell` (lines 564-701): market sell of the position amount, then
the position is closed. -/
def execute_sell (s : ExecState) (o : OrderRec) (amt : ℚ) : ExecState :=
  if o.sellOk = false then s
  else
    { s with fills := s.fills ++ [Fill.sell o.pair],
             openPos := s.openPos.filter (fun e => decide (e.1 ≠ o.pair)),
             balance := (o.pair, getBal s.balance o.pair - amt) :: s.balance }

/-- `process_order` (lines 147-198): BUY — skipped when a long position is
already open or the circuit breaker is tripped; SELL — skipped when no long
position is open or the pair was bought in this same batch. -/
def process_order (cbTripped : Bool) (s : ExecState) (o : OrderRec) : ExecState :=
  match o.signal with
  | .BUY =>
      match lookupOpen s.openPos o.pair with
      | some _ => s
      | none => if cbTripped then s else execute_buy s o
  | .SELL =>
      match lookupOpen s.openPos o.pair with
      | none => s
      | some amt => if o.pair ∈ s.justBought then s else execute_sell s o amt
  | .HOLD => s

/-- `handler` (lines 120-144): reset `_just_bought_pairs`, process every
record of the batch exactly once, catching (never re-raising) any exception —
so the batch is never replayed by the queue. -/
def handler (cbTripped : Bool) (s0 : ExecState) (batch : List OrderRec) : ExecState :=
  batch.foldl (process_order cbTripped) { s0 with justBought := [], fills := [] }

/-- No SELL fill for `p` occurs after a BUY fill for `p` in the fill log. -/
def noSellAfterBuyB (p : Pair) : List Fill → Bool
  | [] => true
  | Fill.buy q :: rest =>
      (if q = p then !(decide (Fill.sell p ∈ rest)) else true) && noSellAfterBuyB p rest
  | Fill.sell _ :: rest => noSellAfterBuyB p rest

/-! ### Position creation defaults (lines 952-983) -/

/-- The position row written by `save_position`: fixed `stop_loss` at
`rate × 0.95`, `take_profit` at `rate × 1.10`, `closed = False`. -/
structure SavedPosition where
  amount : ℚ
  entry_price : ℚ
  entry_time : ℤ
  stop_loss : ℚ
  take_profit : ℚ
  closed : Bool
deriving DecidableEq, Repr

/-- `save_position` (lines 952-983). -/
def save_position (timestamp : ℤ) (amount rate : ℚ) : SavedPosition :=
  ⟨amount, rate, timestamp, rate * 0.95, rate * 1.10, false⟩

/-- A stored position as the monitor reads it back: `stop_loss` /
`take_profit` may be absent. -/
structure StoredPosition where
  entry_price : ℚ
  stop_loss : Option ℚ
  take_profit : Option ℚ
deriving DecidableEq, Repr

/-- Monitor read of `stop_loss` with its default
(`position.get('stop_loss', entry_price * 0.95)`, monitor line 50). -/
def monitor_read_stop_loss (p : StoredPosition) : ℚ :=
  p.stop_loss.getD (p.entry_price * 0.95)

/-- Monitor read of `take_profit` with its default
(`position.get('take_profit', entry_price * 1.10)`, monitor line 51). -/
def monitor_read_take_profit (p : StoredPosition) : ℚ :=
  p.take_profit.getD (p.entry_price * 1.10)

end Executor

/-! ## Helper lemmas: banker's rounding -/

lemma le_roundHalfEven (x : ℚ) : x - 1/2 ≤ (roundHalfEven x : ℚ) := by
  have h0 := Int.floor_le x
  have h1 := Int.lt_floor_add_one x
  unfold roundHalfEven
  split_ifs <;> push_cast <;> linarith

lemma roundHalfEven_le (x : ℚ) : (roundHalfEven x : ℚ) ≤ x + 1/2 := by
  have h0 := Int.floor_le x
  have h1 := Int.lt_floor_add_one x
  unfold roundHalfEven
  split_ifs <;> push_cast <;> linarith

lemma roundHalfEven_intCast (n : ℤ) : roundHalfEven (n : ℚ) = n := by
  unfold roundHalfEven
  rw [Int.floor_intCast]
  norm_num

lemma roundHalfEven_mono {x y : ℚ} (h : x ≤ y) : roundHalfEven x ≤ roundHalfEven y := by
  have hf : ⌊x⌋ ≤ ⌊y⌋ := Int.floor_le_floor h
  rcases lt_or_eq_of_le hf with hlt | heq
  · have hx : roundHalfEven x ≤ ⌊x⌋ + 1 := by
      unfold roundHalfEven; split_ifs <;> omega
    have hy : ⌊y⌋ ≤ roundHalfEven y := by
      unfold roundHalfEven; split_ifs <;> omega
    omega
  · have hxq : (⌊x⌋ : ℚ) = (⌊y⌋ : ℚ) := by exact_mod_cast heq
    have hfr : x - (⌊x⌋ : ℚ) ≤ y - (⌊y⌋ : ℚ) := by rw [← hxq]; linarith
    unfold roundHalfEven
    split_ifs <;> first | omega | linarith

lemma pyround_mono (d : ℕ) {x y : ℚ} (h : x ≤ y) : pyround d x ≤ pyround d y := by
  have h10 : (0 : ℚ) < 10 ^ d := by positivity
  have hm : x * 10 ^ d ≤ y * 10 ^ d := mul_le_mul_of_nonneg_right h (le_of_lt h10)
  have := roundHalfEven_mono hm
  unfold pyround
  exact (div_le_div_iff_of_pos_right h10).mpr (by exact_mod_cast this)

lemma pyround_ge (d : ℕ) (x : ℚ) : x - 1 / (2 * 10 ^ d) ≤ pyround d x := by
  have h10 : (0 : ℚ) < 10 ^ d := by positivity
  have hb := le_roundHalfEven (x * 10 ^ d)
  unfold pyround
  have := (div_le_div_iff_of_pos_right h10).mpr hb
  calc x - 1 / (2 * 10 ^ d) = (x * 10 ^ d - 1/2) / 10 ^ d := by field_simp; ring
    _ ≤ (roundHalfEven (x * 10 ^ d) : ℚ) / 10 ^ d := this

lemma pyround_le (d : ℕ) (x : ℚ) : pyround d x ≤ x + 1 / (2 * 10 ^ d) := by
  have h10 : (0 : ℚ) < 10 ^ d := by positivity
  have hb := roundHalfEven_le (x * 10 ^ d)
  unfold pyround
  have := (div_le_div_iff_of_pos_right h10).mpr hb
  calc (roundHalfEven (x * 10 ^ d) : ℚ) / 10 ^ d ≤ (x * 10 ^ d + 1/2) / 10 ^ d := this
    _ = x + 1 / (2 * 10 ^ d) := by field_simp; ring

lemma pyround_int_div (d : ℕ) (k : ℤ) :
    pyround d ((k : ℚ) / 10 ^ d) = (k : ℚ) / 10 ^ d := by
  have h10 : (10 : ℚ) ^ d ≠ 0 := by positivity
  unfold pyround
  rw [div_mul_cancel₀ _ h10, roundHalfEven_intCast]

/-- A rational that lies on the `10⁻ᵈ` grid is a fixed point of `pyround d`,
and `pyround d` dominates it on anything at least as large. -/
lemma pyround_ge_of_grid {d : ℕ} {a v : ℚ} (k : ℤ) (hk : a = (k : ℚ) / 10 ^ d)
    (hav : a ≤ v) : a ≤ pyround d v := by
  calc a = pyround d a := by rw [hk, pyround_int_div]
    _ ≤ pyround d v := pyround_mono d hav

/-! ## Helper lemmas: trailing-stop monotonicity (C2) -/

namespace Monitor

/-- Any stop value returned by `calculate_trailing_stop` is at least the
breakeven floor `entry × 1.001` and strictly above the current stop. -/
lemma calculate_trailing_stop_some {e c sl hp v : ℚ}
    (h : calculate_trailing_stop e c sl hp = some v) :
    e * 1.001 ≤ v ∧ sl < v := by
  unfold calculate_trailing_stop at h
  simp only [] at h
  split_ifs at h
  all_goals first
    | exact Option.noConfusion h
    | · injection h with h
        subst h
        exact ⟨le_max_right _ _, by assumption⟩

/-- Invariant carried across monitoring cycles: the persisted stop is either
still the initial `0.95 × entry` or a value written by `update_stop_loss`,
hence on the 0.01 grid. -/
def MonInv (entry_price : ℚ) (s : MonState) : Prop :=
  s.stop_loss = entry_price * 0.95 ∨ ∃ k : ℤ, s.stop_loss = (k : ℚ) / 10 ^ 2

lemma monitor_step_mono (entry_price take_profit : ℚ) (he : 1/10 ≤ entry_price)
    (s : MonState) (p : ℚ) (hinv : MonInv entry_price s) :
    s.stop_loss ≤ (monitor_step entry_price take_profit s p).stop_loss ∧
      MonInv entry_price (monitor_step entry_price take_profit s p) := by
  unfold monitor_step
  split_ifs with h1 h2 h3
  · exact ⟨le_refl _, hinv⟩
  · exact ⟨le_refl _, hinv⟩
  · exact ⟨le_refl _, hinv⟩
  all_goals
    rcases hcalc : calculate_trailing_stop entry_price p s.stop_loss _ with _ | v
    · exact ⟨le_refl _, hinv⟩
    · dsimp only
      rcases calculate_trailing_stop_some hcalc with ⟨hbe, hlt⟩
      have hvpos : (0 : ℚ) < v := by linarith
      have hc : v ≠ 0 ∧ s.stop_loss < v := ⟨ne_of_gt hvpos, hlt⟩
      rw [if_pos hc]
      refine ⟨?_, Or.inr ⟨roundHalfEven (v * 10 ^ 2), rfl⟩⟩
      rcases hinv with h0 | ⟨k, hk⟩
      · have hpg := pyround_ge 2 v
        show s.stop_loss ≤ pyround 2 v
        rw [h0]
        norm_num at hpg ⊢
        linarith
      · exact pyround_ge_of_grid k hk (le_of_lt hlt)

/-- A monitoring cycle changes the stop only by adopting a freshly computed
trailing stop that is strictly higher than the current one. -/
lemma monitor_step_strict (entry_price take_profit : ℚ) (s : MonState) (p : ℚ) :
    (monitor_step entry_price take_profit s p).stop_loss ≠ s.stop_loss →
    ∃ v, calculate_trailing_stop entry_price p s.stop_loss
          (if s.highest_price < p then p else s.highest_price) = some v ∧
        s.stop_loss < v ∧
        (monitor_step entry_price take_profit s p).stop_loss = pyround 2 v := by
  unfold monitor_step
  split_ifs with h1 h2 h3
  all_goals try exact fun hne => absurd rfl hne
  all_goals
    rcases hcalc : calculate_trailing_stop entry_price p s.stop_loss _ with _ | v
  all_goals try exact fun hne => absurd rfl hne
  all_goals try dsimp only
  all_goals by_cases hc : v ≠ 0 ∧ s.stop_loss < v
  all_goals try (rw [if_pos hc]; exact fun _ => ⟨v, rfl, hc.2, rfl⟩)
  all_goals (rw [if_neg hc]; exact fun hne => absurd rfl hne)

lemma monitor_run_mono_aux (entry_price take_profit : ℚ) (he : 1/10 ≤ entry_price) :
    ∀ (ps : List ℚ) (s : MonState), MonInv entry_price s →
      s.stop_loss ≤ (monitor_run entry_price take_profit s ps).stop_loss ∧
        MonInv entry_price (monitor_run entry_price take_profit s ps) := by
  intro ps
  induction ps with
  | nil => exact fun s h => ⟨le_refl _, h⟩
  | cons p ps ih =>
      intro s h
      have hstep := monitor_step_mono entry_price take_profit he s p h
      have hrest := ih (monitor_step entry_price take_profit s p) hstep.2
      exact ⟨le_trans hstep.1 hrest.1, hrest.2⟩

end Monitor

/-! ## Claim C2: trailing-stop ratchet -/

/--
C2, counterexample to the claim as stated.  The claim asserts that the
position's `stop_loss` is monotonically non-decreasing over its lifetime for
EVERY open position and EVERY price sequence.  The persisted stop, however, is
written by `update_stop_loss` as `round(new_sl, 2)`: for an entry price of
0.0528 the initial stop is `0.0528 × 0.95 = 0.05016`, and one observation at
0.0545 (peak gain 3.22%, trail 2%) adopts `0.0545 × 0.98 = 0.05341`, which is
persisted as `round(0.05341, 2) = 0.05 < 0.05016` — the stored stop decreases.
-/
theorem C2_counterexample :
    (Monitor.monitor_step 0.0528 (0.0528 * 1.10) (Monitor.monitor_init 0.0528)
        0.0545).stop_loss <
      (Monitor.monitor_init 0.0528).stop_loss := by
  have habs : |(17 : ℚ) / 10000| = 17 / 10000 := abs_of_pos (by norm_num)
  norm_num [Monitor.monitor_step, Monitor.monitor_init,
    Monitor.calculate_trailing_stop, habs, pyround, roundHalfEven]

/--
C2 (amended): for every position whose entry price is at least 0.1 (every
configured JPY pair trades far above this) and every sequence of observed
prices — out-of-order and repeated peaks included — the persisted `stop_loss`
is monotonically non-decreasing over the position's lifetime; and whenever a
monitoring cycle changes the stop at all, it is because
`calculate_trailing_stop` computed a stop strictly higher than the current
one (which is then persisted rounded to 2 decimals).
-/
theorem C2_trailing_stop_ratchet (entry_price take_profit : ℚ)
    (he : 1/10 ≤ entry_price) :
    (∀ ps qs : List ℚ,
      (Monitor.monitor_run entry_price take_profit
          (Monitor.monitor_init entry_price) ps).stop_loss ≤
        (Monitor.monitor_run entry_price take_profit
          (Monitor.monitor_init entry_price) (ps ++ qs)).stop_loss)
    ∧ (∀ (s : Monitor.MonState) (p : ℚ),
        (Monitor.monitor_step entry_price take_profit s p).stop_loss ≠ s.stop_loss →
        ∃ v, Monitor.calculate_trailing_stop entry_price p s.stop_loss
              (if s.highest_price < p then p else s.highest_price) = some v ∧
            s.stop_loss < v ∧
            (Monitor.monitor_step entry_price take_profit s p).stop_loss =
              pyround 2 v) := by
  constructor
  · intro ps qs
    have hinit : Monitor.MonInv entry_price (Monitor.monitor_init entry_price) :=
      Or.inl rfl
    have hps := Monitor.monitor_run_mono_aux entry_price take_profit he ps
      (Monitor.monitor_init entry_price) hinit
    have hqs := Monitor.monitor_run_mono_aux entry_price take_profit he qs
      (Monitor.monitor_run entry_price take_profit
        (Monitor.monitor_init entry_price) ps) hps.2
    calc (Monitor.monitor_run entry_price take_profit
          (Monitor.monitor_init entry_price) ps).stop_loss
        ≤ (Monitor.monitor_run entry_price take_profit
            (Monitor.monitor_run entry_price take_profit
              (Monitor.monitor_init entry_price) ps) qs).stop_loss := hqs.1
      _ = (Monitor.monitor_run entry_price take_profit
            (Monitor.monitor_init entry_price) (ps ++ qs)).stop_loss := by
          unfold Monitor.monitor_run
          rw [List.foldl_append]
  · exact fun s p => Monitor.monitor_step_strict entry_price take_profit s p

/-- C2 witness: the amended monotonicity theorem applied at entry 100 with the
price sequence [108] extended by [95]. -/
theorem C2_trailing_stop_ratchet_witness :
    (1/10 ≤ (100 : ℚ)) ∧
    (Monitor.monitor_run 100 110 (Monitor.monitor_init 100) [108]).stop_loss ≤
      (Monitor.monitor_run 100 110 (Monitor.monitor_init 100)
        ([108] ++ [95])).stop_loss :=
  ⟨by norm_num, (C2_trailing_stop_ratchet 100 110 (by norm_num)).1 [108] [95]⟩

/-! ## Helper lemmas: Kelly sizing (C4, C5) -/

namespace Executor

lemma taker_fee_not_pos : ¬ (0 : ℚ) < TAKER_FEE_RATE := by norm_num [TAKER_FEE_RATE]

/-- The sizer's output is either the rejected 0 or lies in
`[MIN_ORDER_JPY, MAX_POSITION_JPY]`. -/
lemma finalize_order_amount_cases (amount : ℚ) :
    finalize_order_amount amount = 0 ∨
      (MIN_ORDER_JPY ≤ finalize_order_amount amount ∧
        finalize_order_amount amount ≤ MAX_POSITION_JPY) := by
  unfold finalize_order_amount
  rw [if_neg taker_fee_not_pos]
  split_ifs with h
  · exact Or.inl rfl
  · exact Or.inr ⟨not_lt.mp h, min_le_right _ _⟩

lemma finalize_order_amount_eq {amount : ℚ} (hlo : MIN_ORDER_JPY ≤ amount)
    (hhi : amount ≤ MAX_POSITION_JPY) : finalize_order_amount amount = amount := by
  unfold finalize_order_amount
  rw [if_neg taker_fee_not_pos, min_eq_left hhi, if_neg (not_lt.mpr hlo)]

lemma kelly_adjusted_fraction_bounds (stats : TradeStats) (score : ℚ) :
    KELLY_MIN_FRACTION ≤ kelly_adjusted_fraction stats score ∧
      kelly_adjusted_fraction stats score ≤ KELLY_MAX_FRACTION := by
  unfold kelly_adjusted_fraction
  refine ⟨le_max_left _ _, max_le ?_ (min_le_left _ _)⟩
  norm_num [KELLY_MIN_FRACTION, KELLY_MAX_FRACTION]

lemma kelly_adjusted_fraction_of_nonpos (stats : TradeStats) (score : ℚ)
    (hk : kelly_full_of stats ≤ 0) :
    kelly_adjusted_fraction stats score = KELLY_MIN_FRACTION := by
  unfold kelly_adjusted_fraction
  rw [if_pos hk]
  have hsf1 : min 1 (max 0.3 ((score - 0.10) / 0.40)) ≤ 1 := min_le_left _ _
  have h1 : KELLY_MIN_FRACTION * min 1 (max 0.3 ((score - 0.10) / 0.40)) ≤
      KELLY_MIN_FRACTION :=
    mul_le_of_le_one_right (by norm_num [KELLY_MIN_FRACTION]) hsf1
  have h2 : KELLY_MIN_FRACTION * min 1 (max 0.3 ((score - 0.10) / 0.40)) ≤
      KELLY_MAX_FRACTION :=
    le_trans h1 (by norm_num [KELLY_MIN_FRACTION, KELLY_MAX_FRACTION])
  rw [min_eq_right h2, max_eq_left h1]

lemma fallback_lookup_mono {s1 s2 : ℚ} (h : s1 ≤ s2) :
    fallback_lookup FALLBACK_SCORE_THRESHOLDS s1 ≤
      fallback_lookup FALLBACK_SCORE_THRESHOLDS s2 := by
  simp only [FALLBACK_SCORE_THRESHOLDS, fallback_lookup]
  split_ifs <;> linarith

end Executor

/-! ## Claim C4: Kelly sizer output bounds -/

/--
C4, counterexample to the claim as stated.  With 6 trades, win rate 0.4,
average win 1% and average loss 2%, `full_kelly = (0.4·0.5 - 0.6)/0.5 = -0.8 ≤ 0`,
so the minimum fraction 0.10 is used; with ¥1,000 of deployable capital the
order would be ¥100, which is below `MIN_ORDER_JPY = ¥500`, so the sizer
returns 0 — a zero order, outside `[min_fraction, max_fraction] × capital`.
-/
theorem C4_counterexample :
    Executor.kelly_full_of ⟨6, 0.4, 1, 2⟩ ≤ 0 ∧
    Executor.calculate_order_amount ⟨6, 0.4, 1, 2⟩ 0.5 1000 = 0 ∧
    Executor.calculate_order_amount ⟨6, 0.4, 1, 2⟩ 0.5 1000 <
      Executor.KELLY_MIN_FRACTION * 1000 := by
  norm_num [Executor.kelly_full_of, Executor.calculate_order_amount,
    Executor.kelly_adjusted_fraction, Executor.finalize_order_amount,
    Executor.MIN_TRADES_FOR_KELLY, Executor.KELLY_MIN_FRACTION,
    Executor.KELLY_MAX_FRACTION, Executor.KELLY_SAFETY_FACTOR,
    Executor.MAX_POSITION_JPY, Executor.MIN_ORDER_JPY, Executor.TAKER_FEE_RATE,
    min_def, max_def]

/--
C4 (amended): on the Kelly path (at least `MIN_TRADES_FOR_KELLY` trades and a
non-zero average loss): `full_kelly ≤ 0` yields exactly the minimum fraction;
the final fraction is always clamped to `[0.10, 0.80]`; the order amount is
`available × fraction` capped at `MAX_POSITION_JPY` and zeroed below
`MIN_ORDER_JPY`, hence it is never negative — it is either 0 or in
`[MIN_ORDER_JPY, MAX_POSITION_JPY]` — and it equals `available × fraction`
(which lies within `[min_fraction, max_fraction] × capital`) whenever that
product is within `[MIN_ORDER_JPY, MAX_POSITION_JPY]`.
-/
theorem C4_kelly_sizer (stats : Executor.TradeStats) (score available_jpy : ℚ)
    (h1 : Executor.MIN_TRADES_FOR_KELLY ≤ stats.total_trades)
    (h2 : stats.avg_loss_pct ≠ 0) :
    (Executor.kelly_full_of stats ≤ 0 →
      Executor.kelly_adjusted_fraction stats score = Executor.KELLY_MIN_FRACTION)
    ∧ Executor.KELLY_MIN_FRACTION ≤ Executor.kelly_adjusted_fraction stats score
    ∧ Executor.kelly_adjusted_fraction stats score ≤ Executor.KELLY_MAX_FRACTION
    ∧ Executor.calculate_order_amount stats score available_jpy =
        Executor.finalize_order_amount
          (available_jpy * Executor.kelly_adjusted_fraction stats score)
    ∧ (Executor.calculate_order_amount stats score available_jpy = 0 ∨
        (Executor.MIN_ORDER_JPY ≤ Executor.calculate_order_amount stats score available_jpy ∧
          Executor.calculate_order_amount stats score available_jpy ≤
            Executor.MAX_POSITION_JPY))
    ∧ (Executor.MIN_ORDER_JPY ≤ available_jpy * Executor.kelly_adjusted_fraction stats score →
        available_jpy * Executor.kelly_adjusted_fraction stats score ≤
          Executor.MAX_POSITION_JPY →
        Executor.calculate_order_amount stats score available_jpy =
          available_jpy * Executor.kelly_adjusted_fraction stats score)
    ∧ 0 ≤ Executor.calculate_order_amount stats score available_jpy := by
  have hno : ¬ stats.total_trades < Executor.MIN_TRADES_FOR_KELLY := not_lt.mpr h1
  have hcalc : Executor.calculate_order_amount stats score available_jpy =
      Executor.finalize_order_amount
        (available_jpy * Executor.kelly_adjusted_fraction stats score) := by
    unfold Executor.calculate_order_amount
    rw [if_neg hno, if_neg h2]
  refine ⟨fun hk => Executor.kelly_adjusted_fraction_of_nonpos stats score hk,
    (Executor.kelly_adjusted_fraction_bounds stats score).1,
    (Executor.kelly_adjusted_fraction_bounds stats score).2,
    hcalc, ?_, ?_, ?_⟩
  · rw [hcalc]
    exact Executor.finalize_order_amount_cases _
  · intro hlo hhi
    rw [hcalc]
    exact Executor.finalize_order_amount_eq hlo hhi
  · rw [hcalc]
    rcases Executor.finalize_order_amount_cases
        (available_jpy * Executor.kelly_adjusted_fraction stats score) with h | ⟨h, _⟩
    · rw [h]
    · calc (0 : ℚ) ≤ Executor.MIN_ORDER_JPY := by norm_num [Executor.MIN_ORDER_JPY]
        _ ≤ _ := h

/-- C4 witness: the amended theorem applied to 6 trades with win rate 0.5,
average win 3%, average loss 2%, score 0.5 and ¥10,000 of capital. -/
theorem C4_kelly_sizer_witness :
    (Executor.MIN_TRADES_FOR_KELLY ≤ (6 : ℕ) ∧ ((2 : ℚ) ≠ 0)) ∧
    Executor.KELLY_MIN_FRACTION ≤
      Executor.kelly_adjusted_fraction ⟨6, 0.5, 3, 2⟩ 0.5 :=
  ⟨⟨by norm_num [Executor.MIN_TRADES_FOR_KELLY], by norm_num⟩,
   (C4_kelly_sizer ⟨6, 0.5, 3, 2⟩ 0.5 10000
     (by norm_num [Executor.MIN_TRADES_FOR_KELLY]) (by norm_num)).2.1⟩

/-! ## Claim C5: Kelly sizer input scope and fallback -/

/--
C5, counterexample to the claim as stated.  The claim says the statistics
feeding the sizer are computed from the closed-trade history "of the
instrument being bought".  `get_trade_statistics` takes no instrument
argument and pools the trailing-90-day closed positions of ALL configured
pairs: with a single closed btc_jpy position on record, the statistics used
while buying eth_jpy count 1 trade, whereas the spec-modelled per-instrument
statistics for eth_jpy count 0.
-/
theorem C5_counterexample :
    (Executor.get_trade_statistics [Pair.btc, Pair.eth]
        [⟨Pair.btc, true, 100, 110, 1, 1000⟩] 2000).total_trades = 1 ∧
    (Executor.get_trade_statistics_spec Pair.eth
        [⟨Pair.btc, true, 100, 110, 1, 1000⟩] 2000).total_trades = 0 := by
  have hbe : decide (Pair.btc = Pair.eth) = false := rfl
  have hbb : decide (Pair.btc = Pair.btc) = true := rfl
  norm_num [Executor.get_trade_statistics, Executor.get_trade_statistics_spec,
    Executor.closed_pnl_pcts, List.filter, hbe, hbb]

/--
C5 (amended): the trade statistics feeding the sizer are computed from the
trailing 90-day closed-position history of ALL configured instruments pooled
together (not only the instrument being bought): a closed position of any
configured pair with truthy exit data, exit inside the window and positive
entry price contributes its P/L percentage, and `total_trades` counts exactly
the collected list.  Whenever fewer than `MIN_TRADES_FOR_KELLY = 5` such
trades are available, the fixed fallback table mapping score bands to
fractions is used instead of the Kelly formula, and that table is monotone:
a higher score never maps to a smaller fraction (0.15→0.20, 0.25→0.30,
0.35→0.45, 0.45→0.60, below 0.15 → 0).
-/
theorem C5_kelly_inputs (cfg : List Pair) (recs : List Executor.PosRecord)
    (now : ℤ) (r : Executor.PosRecord) (stats : Executor.TradeStats)
    (score available_jpy s1 s2 : ℚ) :
    ((Executor.get_trade_statistics cfg recs now).total_trades =
      (Executor.closed_pnl_pcts cfg recs now).length)
    ∧ (r ∈ recs → r.pair ∈ cfg → r.closed = true → r.exit_time ≠ 0 →
        r.exit_price ≠ 0 → now - 90 * 86400 < r.exit_time → 0 < r.entry_price →
        ((r.exit_price - r.entry_price) / r.entry_price * 100) ∈
          Executor.closed_pnl_pcts cfg recs now)
    ∧ (stats.total_trades < Executor.MIN_TRADES_FOR_KELLY →
        Executor.calculate_order_amount stats score available_jpy =
          Executor._calculate_order_amount_fallback score available_jpy)
    ∧ (s1 ≤ s2 →
        Executor.fallback_lookup Executor.FALLBACK_SCORE_THRESHOLDS s1 ≤
          Executor.fallback_lookup Executor.FALLBACK_SCORE_THRESHOLDS s2)
    ∧ Executor.fallback_lookup Executor.FALLBACK_SCORE_THRESHOLDS 0.5 = 0.60
    ∧ Executor.fallback_lookup Executor.FALLBACK_SCORE_THRESHOLDS 0.4 = 0.45
    ∧ Executor.fallback_lookup Executor.FALLBACK_SCORE_THRESHOLDS 0.3 = 0.30
    ∧ Executor.fallback_lookup Executor.FALLBACK_SCORE_THRESHOLDS 0.2 = 0.20
    ∧ Executor.fallback_lookup Executor.FALLBACK_SCORE_THRESHOLDS 0.1 = 0 := by
  refine ⟨?_, ?_, ?_, fun h => Executor.fallback_lookup_mono h, ?_, ?_, ?_, ?_, ?_⟩
  · simp only [Executor.get_trade_statistics]
    split_ifs with h
    · rw [h]; rfl
    all_goals rfl
  · intro hmem hcfg hclosed het hep hwin hentry
    unfold Executor.closed_pnl_pcts
    rw [List.mem_flatten]
    refine ⟨_, List.mem_map_of_mem _ hcfg, ?_⟩
    exact List.mem_map_of_mem _
      (List.mem_filter.mpr ⟨hmem, by simp [hclosed, het, hep, hentry]; omega⟩)
  · intro h
    unfold Executor.calculate_order_amount
    rw [if_pos h]
  all_goals norm_num [Executor.fallback_lookup, Executor.FALLBACK_SCORE_THRESHOLDS]

/-- C5 witness: the amended theorem applied at a concrete record and scores. -/
theorem C5_kelly_inputs_witness :
    ((⟨Pair.btc, true, 100, 110, 1, 1000⟩ : Executor.PosRecord) ∈
        [(⟨Pair.btc, true, 100, 110, 1, 1000⟩ : Executor.PosRecord)] ∧
      Pair.btc ∈ [Pair.btc] ∧ (0.2 : ℚ) ≤ 0.3) ∧
    Executor.fallback_lookup Executor.FALLBACK_SCORE_THRESHOLDS 0.2 ≤
      Executor.fallback_lookup Executor.FALLBACK_SCORE_THRESHOLDS 0.3 :=
  ⟨⟨List.mem_singleton_self _, List.mem_singleton_self _, by norm_num⟩,
   (C5_kelly_inputs [Pair.btc] [⟨Pair.btc, true, 100, 110, 1, 1000⟩] 2000
     ⟨Pair.btc, true, 100, 110, 1, 1000⟩ ⟨0, 0, 0, 0⟩ 0 0 0.2 0.3).2.2.2.1
     (by norm_num)⟩

/-! ## Helper lemmas: threshold calibration (C6, C7) -/

namespace Aggregator

lemma vol_clamped_bounds (bb_width meta_baseline : ℚ) :
    VOL_CLAMP_MIN ≤ vol_clamped bb_width meta_baseline ∧
      vol_clamped bb_width meta_baseline ≤ VOL_CLAMP_MAX := by
  unfold vol_clamped
  exact ⟨le_max_left _ _,
    max_le (by norm_num [VOL_CLAMP_MIN, VOL_CLAMP_MAX]) (min_le_left _ _)⟩

lemma fng_buy_adder_nonneg (fng_value : Option ℤ) : 0 ≤ fng_buy_adder fng_value := by
  rcases fng_value with _ | v
  · simp [fng_buy_adder]
  · simp only [fng_buy_adder]
    split_ifs <;> norm_num

lemma sell_threshold_for_neg (bb_width meta_baseline : ℚ) :
    sell_threshold_for bb_width meta_baseline < 0 := by
  have hv := (vol_clamped_bounds bb_width meta_baseline).1
  have hb : BASE_SELL_THRESHOLD * vol_clamped bb_width meta_baseline ≤
      BASE_SELL_THRESHOLD * VOL_CLAMP_MIN :=
    mul_le_mul_of_nonpos_left hv (by norm_num [BASE_SELL_THRESHOLD])
  have hp := pyround_le 4 (BASE_SELL_THRESHOLD * vol_clamped bb_width meta_baseline)
  unfold sell_threshold_for
  norm_num [BASE_SELL_THRESHOLD, VOL_CLAMP_MIN] at hb hp ⊢
  linarith

lemma buy_threshold_for_pos (bb_width meta_baseline adder : ℚ) (h : 0 ≤ adder) :
    0 < buy_threshold_for bb_width meta_baseline adder := by
  have hv := (vol_clamped_bounds bb_width meta_baseline).1
  rw [show VOL_CLAMP_MIN = (0.67 : ℚ) from rfl] at hv
  have harg : (0.1675 : ℚ) ≤
      min (BASE_BUY_THRESHOLD * vol_clamped bb_width meta_baseline + adder)
        BUY_THRESHOLD_CAP := by
    apply le_min
    · rw [show BASE_BUY_THRESHOLD = (0.25 : ℚ) from rfl]
      nlinarith
    · norm_num [BUY_THRESHOLD_CAP]
  have hp := pyround_ge 4
    (min (BASE_BUY_THRESHOLD * vol_clamped bb_width meta_baseline + adder)
      BUY_THRESHOLD_CAP)
  unfold buy_threshold_for
  have h4 : (1 : ℚ) / (2 * 10 ^ 4) = 1 / 20000 := by norm_num
  rw [h4] at hp
  linarith

lemma sell_threshold_lt_buy_threshold (bb_width meta_baseline adder : ℚ)
    (h : 0 ≤ adder) :
    sell_threshold_for bb_width meta_baseline <
      buy_threshold_for bb_width meta_baseline adder :=
  lt_trans (sell_threshold_for_neg bb_width meta_baseline)
    (buy_threshold_for_pos bb_width meta_baseline adder h)

end Aggregator

/-! ## Claim C6: threshold calibrator -/

/--
C6 (confirmed): per instrument, the volatility factor is
`bb_width / meta_baseline` clamped to `[0.67, 2.0]`;
`buy = base_buy × vol + macro_adder`, capped at the absolute ceiling 0.45
(stored rounded to 4 decimals, a monotone operation); `sell = base_sell × vol`
with no macro term; the macro adder is non-zero only in Extreme Fear
(`fng ≤ 20`, +0.06) or Extreme Greed (`fng ≥ 80`, +0.04); and calibration is
monotone in the volatility ratio — a wider band never brings either
threshold closer to zero (buy is non-negative and non-decreasing, sell is
negative and non-increasing).
-/
theorem C6_threshold_calibrator (bb1 bb2 meta_baseline adder : ℚ) (v : ℤ) :
    (Aggregator.VOL_CLAMP_MIN ≤ Aggregator.vol_clamped bb1 meta_baseline ∧
      Aggregator.vol_clamped bb1 meta_baseline ≤ Aggregator.VOL_CLAMP_MAX)
    ∧ Aggregator.buy_threshold_for bb1 meta_baseline adder ≤
        Aggregator.BUY_THRESHOLD_CAP
    ∧ (v ≤ 20 → Aggregator.fng_buy_adder (some v) = 0.06)
    ∧ (80 ≤ v → Aggregator.fng_buy_adder (some v) = 0.04)
    ∧ (20 < v → v < 80 → Aggregator.fng_buy_adder (some v) = 0)
    ∧ Aggregator.fng_buy_adder none = 0
    ∧ (0 < meta_baseline → bb1 ≤ bb2 →
        Aggregator.buy_threshold_for bb1 meta_baseline adder ≤
            Aggregator.buy_threshold_for bb2 meta_baseline adder ∧
          Aggregator.sell_threshold_for bb2 meta_baseline ≤
            Aggregator.sell_threshold_for bb1 meta_baseline)
    ∧ Aggregator.sell_threshold_for bb1 meta_baseline < 0
    ∧ 0 < Aggregator.buy_threshold_for bb1 meta_baseline
        (Aggregator.fng_buy_adder (some v)) := by
  refine ⟨Aggregator.vol_clamped_bounds bb1 meta_baseline, ?_, ?_, ?_, ?_, rfl,
    ?_, Aggregator.sell_threshold_for_neg bb1 meta_baseline,
    Aggregator.buy_threshold_for_pos bb1 meta_baseline _
      (Aggregator.fng_buy_adder_nonneg (some v))⟩
  · have hcap : pyround 4 Aggregator.BUY_THRESHOLD_CAP =
        Aggregator.BUY_THRESHOLD_CAP := by
      rw [show Aggregator.BUY_THRESHOLD_CAP = ((4500 : ℤ) : ℚ) / 10 ^ 4 by
        norm_num [Aggregator.BUY_THRESHOLD_CAP]]
      exact pyround_int_div 4 4500
    calc Aggregator.buy_threshold_for bb1 meta_baseline adder
        ≤ pyround 4 Aggregator.BUY_THRESHOLD_CAP :=
          pyround_mono 4 (min_le_right _ _)
      _ = Aggregator.BUY_THRESHOLD_CAP := hcap
  · intro hv; simp only [Aggregator.fng_buy_adder]; rw [if_pos hv]
  · intro hv
    simp only [Aggregator.fng_buy_adder]
    rw [if_neg (by omega), if_pos hv]
  · intro hv1 hv2
    simp only [Aggregator.fng_buy_adder]
    rw [if_neg (by omega), if_neg (by omega)]
  · intro hbase hbb
    have hdiv : bb1 / meta_baseline ≤ bb2 / meta_baseline :=
      (div_le_div_iff_of_pos_right hbase).mpr hbb
    have hvol : Aggregator.vol_clamped bb1 meta_baseline ≤
        Aggregator.vol_clamped bb2 meta_baseline :=
      max_le_max (le_refl _) (min_le_min (le_refl _) hdiv)
    constructor
    · apply pyround_mono
      apply min_le_min _ (le_refl _)
      exact add_le_add_right
        (mul_le_mul_of_nonneg_left hvol
          (by norm_num [Aggregator.BASE_BUY_THRESHOLD])) adder
    · apply pyround_mono
      exact mul_le_mul_of_nonpos_left hvol
        (by norm_num [Aggregator.BASE_SELL_THRESHOLD])

/-- C6 witness: the calibrator theorem applied at concrete band widths,
with the monotonicity hypotheses discharged at baseline 0.03 and widths
0.03 ≤ 0.06. -/
theorem C6_threshold_calibrator_witness :
    ((0 : ℚ) < 0.03 ∧ (0.03 : ℚ) ≤ 0.06) ∧
    Aggregator.buy_threshold_for 0.03 0.03 0 ≤
      Aggregator.buy_threshold_for 0.06 0.03 0 :=
  ⟨⟨by norm_num, by norm_num⟩,
   ((C6_threshold_calibrator 0.03 0.06 0.03 0 50).2.2.2.2.2.2.1
     (by norm_num) (by norm_num)).1⟩

/-! ## Claim C7: decision state machine -/

/--
C7 (confirmed): the classification is a pure function of (score, thresholds)
with no position input: BUY iff `score ≥ buy_threshold`, SELL iff
`score ≤ sell_threshold`, HOLD iff the score lies strictly between, provided
`sell_threshold < buy_threshold`; the BUY and SELL regions never overlap; and
every threshold pair produced by the calibrator satisfies
`sell_threshold < buy_threshold`, so the proviso always holds in the
pipeline.  The list-level decision function applies exactly this
classification to each pair with its per-currency thresholds.
-/
theorem C7_decision_state_machine (score buy_t sell_t : ℚ)
    (hlt : sell_t < buy_t) :
    (Aggregator.decide_signal score buy_t sell_t = Sig.BUY ↔ buy_t ≤ score)
    ∧ (Aggregator.decide_signal score buy_t sell_t = Sig.SELL ↔ score ≤ sell_t)
    ∧ (Aggregator.decide_signal score buy_t sell_t = Sig.HOLD ↔
        sell_t < score ∧ score < buy_t)
    ∧ ¬(buy_t ≤ score ∧ score ≤ sell_t)
    ∧ (∀ (bb mb : ℚ) (fng : Option ℤ),
        Aggregator.sell_threshold_for bb mb <
          Aggregator.buy_threshold_for bb mb (Aggregator.fng_buy_adder fng))
    ∧ (∀ p : Pair,
        Aggregator.decide_per_currency_signals [(p, score)] [(p, buy_t, sell_t)] =
          [(p, Aggregator.decide_signal score buy_t sell_t)]) := by
  refine ⟨?_, ?_, ?_, fun ⟨hb, hs⟩ => absurd (le_trans hb hs) (not_le.mpr hlt),
    fun bb mb fng => Aggregator.sell_threshold_lt_buy_threshold bb mb _
      (Aggregator.fng_buy_adder_nonneg fng), ?_⟩
  · unfold Aggregator.decide_signal
    constructor
    · intro h
      by_contra hb
      rw [if_neg hb] at h
      split_ifs at h <;> exact Sig.noConfusion h
    · intro hb
      rw [if_pos hb]
  · unfold Aggregator.decide_signal
    constructor
    · intro h
      split_ifs at h with a b
      all_goals first
        | exact Sig.noConfusion h
        | exact b
    · intro hs
      rw [if_neg (by linarith : ¬ buy_t ≤ score), if_pos hs]
  · unfold Aggregator.decide_signal
    constructor
    · intro h
      split_ifs at h with a b
      all_goals first
        | exact Sig.noConfusion h
        | exact ⟨not_le.mp b, not_le.mp a⟩
    · rintro ⟨hs, hb⟩
      rw [if_neg (not_le.mpr hb), if_neg (not_le.mpr hs)]
  · intro p
    simp [Aggregator.decide_per_currency_signals, List.find?]

/-- C7 witness: the spec's own scenario — score 0.50 with thresholds
buy = 0.30, sell = -0.20 classifies as BUY. -/
theorem C7_decision_state_machine_witness :
    ((-0.2 : ℚ) < 0.3) ∧
    Aggregator.decide_signal 0.5 0.3 (-0.2) = Sig.BUY :=
  ⟨by norm_num,
   (C7_decision_state_machine 0.5 0.3 (-0.2) (by norm_num)).1.mpr (by norm_num)⟩

/-! ## Helper lemmas: confidence monotonicity (C9) -/

namespace Aggregator

lemma weight_shift_mono {c1 c2 : ℚ} (h : c1 ≤ c2) :
    weight_shift c1 ≤ weight_shift c2 := by
  unfold weight_shift
  exact max_le_max (le_refl _) (min_le_min (le_refl _) (by linarith))

lemma effective_chronos_weight_bounds (c : ℚ) :
    (0.27 : ℚ) ≤ effective_chronos_weight c ∧
      effective_chronos_weight c ≤ 0.43 := by
  unfold effective_chronos_weight weight_shift CHRONOS_WEIGHT
  constructor
  · have : (-0.08 : ℚ) ≤ max (-0.08) (min 0.08 ((c - 0.5) * 0.16)) := le_max_left _ _
    linarith
  · have h1 : min (0.08 : ℚ) ((c - 0.5) * 0.16) ≤ 0.08 := min_le_left _ _
    have : max (-0.08 : ℚ) (min 0.08 ((c - 0.5) * 0.16)) ≤ 0.08 :=
      max_le (by norm_num) h1
    linarith

lemma chronos_damped_mono {s c1 c2 : ℚ} (hs : 0 ≤ s) (h0 : 0 ≤ c1) (h : c1 ≤ c2) :
    chronos_damped s c1 ≤ chronos_damped s c2 := by
  unfold chronos_damped
  split_ifs with ha hb hc
  · exact mul_le_mul_of_nonneg_left
      ((div_le_div_iff_of_pos_right (by norm_num : (0 : ℚ) < 0.3)).mpr h) hs
  · calc s * (c1 / 0.3)
        ≤ s * 1 := mul_le_mul_of_nonneg_left
          ((div_le_one (by norm_num)).mpr (le_of_lt ha)) hs
      _ = s := mul_one s
  · exact absurd (lt_of_le_of_lt h hc) ha
  · exact le_refl s

lemma chronos_damped_nonneg {s c : ℚ} (hs : 0 ≤ s) (h0 : 0 ≤ c) :
    0 ≤ chronos_damped s c := by
  unfold chronos_damped
  split_ifs with ha
  · exact mul_nonneg hs (by positivity)
  · exact hs

end Aggregator

/-! ## Claim C9: confidence monotonicity of the forecast contribution -/

/--
C9 (confirmed): with the forecast (Chronos) score held fixed at any value
≥ 0, raising the forecast confidence within `[0, 1]` never decreases the
forecast component's contribution to the fused score: both the sub-0.3
damping factor `confidence/0.3` and the confidence-shifted forecast weight
`0.35 + clamp((confidence - 0.5)·0.16, ±0.08)` are non-negative and
non-decreasing, so their product with the fixed score is non-decreasing;
and the fused total is exactly the clamped sum in which this contribution
appears as one summand.
-/
theorem C9_confidence_monotonicity (chronos_score c1 c2 : ℚ)
    (hs : 0 ≤ chronos_score) (h0 : 0 ≤ c1) (h12 : c1 ≤ c2) (h1 : c2 ≤ 1) :
    Aggregator.chronos_contribution chronos_score c1 ≤
      Aggregator.chronos_contribution chronos_score c2
    ∧ (∀ tech sent mc alt : ℚ,
        Aggregator.score_pair_total tech chronos_score sent c1 mc alt =
          max (-1) (min 1
            (tech * Aggregator.effective_tech_weight c1 +
             Aggregator.chronos_contribution chronos_score c1 +
             ((sent - 0.5) * 2) * Aggregator.SENTIMENT_WEIGHT +
             mc * Aggregator.MARKET_CONTEXT_WEIGHT + alt))) := by
  constructor
  · unfold Aggregator.chronos_contribution
    have hd := Aggregator.chronos_damped_mono hs h0 h12
    have hdn := Aggregator.chronos_damped_nonneg hs h0
    have hw := Aggregator.weight_shift_mono h12
    have hb1 := Aggregator.effective_chronos_weight_bounds c1
    have hb2 := Aggregator.effective_chronos_weight_bounds c2
    have hwm : Aggregator.effective_chronos_weight c1 ≤
        Aggregator.effective_chronos_weight c2 := by
      unfold Aggregator.effective_chronos_weight
      linarith
    exact mul_le_mul hd hwm (by linarith) (Aggregator.chronos_damped_nonneg hs
      (le_trans h0 h12))
  · intro tech sent mc alt
    rfl

/-- C9 witness: the monotonicity theorem applied at score 0.5 and
confidences 0.2 ≤ 0.8. -/
theorem C9_confidence_monotonicity_witness :
    ((0 : ℚ) ≤ 0.5 ∧ (0 : ℚ) ≤ 0.2 ∧ (0.2 : ℚ) ≤ 0.8 ∧ (0.8 : ℚ) ≤ 1) ∧
    Aggregator.chronos_contribution 0.5 0.2 ≤
      Aggregator.chronos_contribution 0.5 0.8 :=
  ⟨⟨by norm_num, by norm_num, by norm_num, by norm_num⟩,
   (C9_confidence_monotonicity 0.5 0.2 0.8 (by norm_num) (by norm_num)
     (by norm_num) (by norm_num)).1⟩

/-! ## Helper lemmas: multi-timeframe aggregation (C8) -/

lemma list_sum_map_div {α : Type} (l : List α) (f : α → ℚ) (c : ℚ) :
    (l.map (fun x => f x / c)).sum = (l.map f).sum / c := by
  induction l with
  | nil => simp
  | cons x xs ih => simp [ih, add_div]

namespace Aggregator

lemma timeframe_weights_pos : ∀ tf : TF, 0 < TIMEFRAME_WEIGHTS tf := by
  intro tf
  cases tf <;> norm_num [TIMEFRAME_WEIGHTS]

lemma tf_total_weight_pos (scores : TF → Option ℚ) (h : tf_available scores ≠ []) :
    0 < tf_total_weight scores := by
  unfold tf_total_weight
  apply List.sum_pos
  · intro x hx
    rcases List.mem_map.mp hx with ⟨tf, _, rfl⟩
    exact timeframe_weights_pos tf
  · intro hmap
    exact h (List.map_eq_nil_iff.mp hmap)

/-- After dropping missing/stale timeframes, the re-normalized weights sum
to 1. -/
lemma norm_weights_sum_one (scores : TF → Option ℚ) (h : tf_available scores ≠ []) :
    ((tf_available scores).map
      (fun tf => TIMEFRAME_WEIGHTS tf / tf_total_weight scores)).sum = 1 := by
  rw [list_sum_map_div]
  exact div_self (ne_of_gt (tf_total_weight_pos scores h))

end Aggregator

/-! ## Claim C8: multi-timeframe aggregation algorithm -/

/--
C8 (confirmed): a stored per-TF score is kept iff its age is within the
per-timeframe staleness bound; with zero available timeframes the aggregator
returns the neutral result explicitly flagged (alignment `unknown`, empty
timeframe list) rather than a bare zero score; otherwise the dropped-TF
weights are re-normalized to sum to 1, the total is the weighted average
scaled by the agreement bonus (`×1.15 > 1` at agreement ≥ 0.75) or penalty
(`×0.85 < 1` at agreement ≤ 0.50) or left unchanged, plus the alt-dominance
adjustment, clamped to `[-1, 1]`; and the final score always lies in
`[-1, 1]`.
-/
theorem C8_multi_tf_aggregation (now : ℤ)
    (rows : Aggregator.TF → Option Aggregator.TFScoreRow)
    (scores : Aggregator.TF → Option ℚ) (dom : Option ℚ) (is_btc : Bool)
    (tf : Aggregator.TF) :
    ((Aggregator._read_all_tf_scores now rows tf).isSome ↔
      (∃ row, rows tf = some row ∧
        now - row.timestamp ≤ Aggregator.TF_STALENESS tf))
    ∧ ((∀ t, scores t = none) →
        Aggregator._calculate_multi_tf_score scores dom is_btc =
          Aggregator._neutral_scored_result)
    ∧ Aggregator._neutral_scored_result.alignment = Aggregator.Alignment.unknown
    ∧ Aggregator._neutral_scored_result.available_timeframes = []
    ∧ (1 : ℚ) < Aggregator.TF_ALIGNMENT_BONUS
    ∧ Aggregator.TF_MISALIGN_PENALTY < 1
    ∧ (Aggregator.tf_available scores ≠ [] →
        (((Aggregator.tf_available scores).map
            (fun t => Aggregator.TIMEFRAME_WEIGHTS t /
              Aggregator.tf_total_weight scores)).sum = 1)
        ∧ (Aggregator._calculate_multi_tf_score scores dom is_btc).available_timeframes =
            Aggregator.tf_available scores
        ∧ (3/4 ≤ Aggregator.tf_agreement scores →
            (Aggregator._calculate_multi_tf_score scores dom is_btc).total_score =
                max (-1) (min 1
                  (Aggregator.tf_weighted_score scores * Aggregator.TF_ALIGNMENT_BONUS +
                    Aggregator.alt_dominance_adjustment dom is_btc)) ∧
              (Aggregator._calculate_multi_tf_score scores dom is_btc).alignment =
                Aggregator.Alignment.aligned)
        ∧ (Aggregator.tf_agreement scores ≤ 1/2 →
            (Aggregator._calculate_multi_tf_score scores dom is_btc).total_score =
                max (-1) (min 1
                  (Aggregator.tf_weighted_score scores * Aggregator.TF_MISALIGN_PENALTY +
                    Aggregator.alt_dominance_adjustment dom is_btc)) ∧
              (Aggregator._calculate_multi_tf_score scores dom is_btc).alignment =
                Aggregator.Alignment.conflicting)
        ∧ (1/2 < Aggregator.tf_agreement scores → Aggregator.tf_agreement scores < 3/4 →
            (Aggregator._calculate_multi_tf_score scores dom is_btc).total_score =
                max (-1) (min 1
                  (Aggregator.tf_weighted_score scores +
                    Aggregator.alt_dominance_adjustment dom is_btc)) ∧
              (Aggregator._calculate_multi_tf_score scores dom is_btc).alignment =
                Aggregator.Alignment.mixed))
    ∧ (-1 ≤ (Aggregator._calculate_multi_tf_score scores dom is_btc).total_score ∧
        (Aggregator._calculate_multi_tf_score scores dom is_btc).total_score ≤ 1) := by
  refine ⟨?_, ?_, rfl, rfl, by norm_num [Aggregator.TF_ALIGNMENT_BONUS],
    by norm_num [Aggregator.TF_MISALIGN_PENALTY], ?_, ?_⟩
  · unfold Aggregator._read_all_tf_scores
    rcases hrow : rows tf with _ | row
    · simp
    · dsimp only
      split_ifs with hstale

      · simp only [Option.isSome_none, Bool.false_eq_true, false_iff]
        rintro ⟨row2, hr2, hfresh⟩
        injection hr2 with hr2
        subst hr2
        omega
      · simp only [Option.isSome_some, true_iff]
        exact ⟨row, rfl, by omega⟩
  · intro h
    have hav : Aggregator.tf_available scores = [] := by
      simp [Aggregator.tf_available, Aggregator.ACTIVE_TIMEFRAMES, h]
    simp only [Aggregator._calculate_multi_tf_score]
    rw [if_pos hav]
  · intro h
    refine ⟨Aggregator.norm_weights_sum_one scores h, ?_, ?_, ?_, ?_⟩
    · simp only [Aggregator._calculate_multi_tf_score]
      rw [if_neg h]
    · intro hag
      simp only [Aggregator._calculate_multi_tf_score]
      rw [if_neg h]
      constructor
      · show max (-1) (min 1 _) = _
        rw [if_pos hag]
      · show (if 3/4 ≤ Aggregator.tf_agreement scores then Aggregator.Alignment.aligned
          else _) = _
        rw [if_pos hag]
    · intro hag
      have hnot : ¬ (3/4 : ℚ) ≤ Aggregator.tf_agreement scores := by linarith
      simp only [Aggregator._calculate_multi_tf_score]
      rw [if_neg h]
      constructor
      · show max (-1) (min 1 _) = _
        rw [if_neg hnot, if_pos hag]
      · show (if 3/4 ≤ Aggregator.tf_agreement scores then Aggregator.Alignment.aligned
          else _) = _
        rw [if_neg hnot, if_pos hag]
    · intro hag1 hag2
      have hnot : ¬ (3/4 : ℚ) ≤ Aggregator.tf_agreement scores := by linarith
      have hnot2 : ¬ Aggregator.tf_agreement scores ≤ 1/2 := by linarith
      simp only [Aggregator._calculate_multi_tf_score]
      rw [if_neg h]
      constructor
      · show max (-1) (min 1 _) = _
        rw [if_neg hnot, if_neg hnot2]
      · show (if 3/4 ≤ Aggregator.tf_agreement scores then Aggregator.Alignment.aligned
          else _) = _
        rw [if_neg hnot, if_neg hnot2]
  · by_cases hav : Aggregator.tf_available scores = []
    · simp only [Aggregator._calculate_multi_tf_score]
      rw [if_pos hav]
      norm_num [Aggregator._neutral_scored_result]
    · simp only [Aggregator._calculate_multi_tf_score]
      rw [if_neg hav]
      constructor
      · exact le_max_left _ _
      · exact max_le (by norm_num) (min_le_left _ _)

/-- C8 witness: the aggregation theorem applied to a single fresh 1h row,
with the re-normalized weight sum extracted. -/
theorem C8_multi_tf_aggregation_witness :
    (Aggregator.tf_available
        (fun t => if t = Aggregator.TF.h1 then some (1/2) else none) ≠ []) ∧
    ((Aggregator.tf_available
        (fun t => if t = Aggregator.TF.h1 then some (1/2) else none)).map
      (fun t => Aggregator.TIMEFRAME_WEIGHTS t / Aggregator.tf_total_weight
        (fun t => if t = Aggregator.TF.h1 then some (1/2) else none))).sum = 1 :=
  ⟨by simp [Aggregator.tf_available, Aggregator.ACTIVE_TIMEFRAMES],
   ((C8_multi_tf_aggregation 0 (fun _ => none)
      (fun t => if t = Aggregator.TF.h1 then some (1/2) else none) none false
      Aggregator.TF.m15).2.2.2.2.2.2.1
      (by simp [Aggregator.tf_available, Aggregator.ACTIVE_TIMEFRAMES])).1⟩

/-! ## Helper lemmas: circuit breaker (C3) -/

namespace Executor

lemma cb_insert_length (e : CBEvent) (l : List CBEvent) :
    (cb_insert e l).length = l.length + 1 := by
  induction l with
  | nil => rfl
  | cons x xs ih =>
      unfold cb_insert
      split_ifs <;> simp [ih]

lemma cb_sort_length (l : List CBEvent) : (cb_sort l).length = l.length := by
  unfold cb_sort
  suffices h : ∀ acc : List CBEvent,
      (l.foldl (fun acc e => cb_insert e acc) acc).length = acc.length + l.length by
    simpa using h []
  induction l with
  | nil => intro acc; simp
  | cons x xs ih =>
      intro acc
      simp only [List.foldl_cons, ih, cb_insert_length, List.length_cons]
      omega

lemma cb_sort_ne_nil {l : List CBEvent} (h : l ≠ []) : cb_sort l ≠ [] := by
  intro hc
  apply h
  have hl := cb_sort_length l
  rw [hc] at hl
  exact List.length_eq_zero.mp hl.symm

lemma takeWhile_head {α : Type} (q : α → Bool) (l : List α)
    (h : 1 ≤ (l.takeWhile q).length) : ∃ x t, l = x :: t ∧ q x = true := by
  cases l with
  | nil => simp at h
  | cons x t =>
      by_cases hq : q x = true
      · exact ⟨x, t, rfl, hq⟩
      · rw [List.takeWhile_cons] at h
        rw [Bool.not_eq_true] at hq
        rw [hq] at h
        simp at h

/-- A non-empty backward loss streak means the most recent closed trade is a
loss. -/
lemma cb_last_loss (evs : List CBEvent) (h : 1 ≤ consecutive_losses evs) :
    (cb_last evs).pnl < 0 := by
  unfold consecutive_losses at h
  rcases takeWhile_head _ _ h with ⟨x, t, hrev, hq⟩
  unfold cb_last
  rw [hrev]
  exact of_decide_eq_true hq

/-- De-sequenced characterization of `check_circuit_breaker` on a non-empty
trailing-24h event window. -/
lemma cb_check_iff (cfg : List Pair) (recs : List PosRecord) (now : ℤ)
    (lossLimit : ℚ) (maxLosses : ℕ) (cooldownHours : ℚ)
    (hne : cb_collect cfg recs now ≠ []) :
    check_circuit_breaker cfg recs now lossLimit maxLosses cooldownHours = true ↔
      (((cb_events cfg recs now).map (fun e => e.pnl)).sum < -lossLimit ∨
        maxLosses ≤ consecutive_losses (cb_events cfg recs now) ∨
        (consecutive_losses (cb_events cfg recs now) + 1 = maxLosses ∧
          ((now - (cb_last (cb_events cfg recs now)).exit_time : ℤ) : ℚ) <
            cooldownHours * 3600)) := by
  have hevs : cb_events cfg recs now ≠ [] := cb_sort_ne_nil hne
  simp only [check_circuit_breaker]
  rw [if_neg hevs]
  split_ifs with h1 h2 h3
  · exact ⟨fun _ => Or.inl h1, fun _ => rfl⟩
  · exact ⟨fun _ => Or.inr (Or.inl h2), fun _ => rfl⟩
  · rw [decide_eq_true_eq]
    constructor
    · intro hc
      exact Or.inr (Or.inr ⟨by omega, hc⟩)
    · rintro (hD | hM | ⟨_, hC⟩)
      · exact absurd hD h1
      · exact absurd hM h2
      · exact hC
  · constructor
    · intro h
      exact absurd h (by simp)
    · rintro (hD | hM | ⟨hE, _⟩)
      · exact absurd hD h1
      · exact absurd hM h2
      · omega

end Executor

/-! ## Claim C3: circuit breaker -/

/--
C3, counterexample to the claim as stated.  Five losing trades (entry 100,
exit 90, amount 1) close at times 10, 11, 12, 13 and 70000.  Checked at time
70000, all five lie in the trailing 24h window, the loss streak reaches the
maximum of 5 and the breaker trips.  Checked at time 86500 — only 16500 s
(< the 6 h = 21600 s cooldown) after the streak threshold was hit — the four
early losses have aged out of the 24h window, the visible streak is 1, the
daily PnL (−10) is above the −15000 limit, and the breaker does NOT trip:
it does not remain tripped through the cooldown window.
-/
theorem C3_counterexample :
    Executor.check_circuit_breaker [Pair.btc]
        [⟨Pair.btc, true, 100, 90, 1, 10⟩, ⟨Pair.btc, true, 100, 90, 1, 11⟩,
         ⟨Pair.btc, true, 100, 90, 1, 12⟩, ⟨Pair.btc, true, 100, 90, 1, 13⟩,
         ⟨Pair.btc, true, 100, 90, 1, 70000⟩] 70000 15000 5 6 = true ∧
    Executor.check_circuit_breaker [Pair.btc]
        [⟨Pair.btc, true, 100, 90, 1, 10⟩, ⟨Pair.btc, true, 100, 90, 1, 11⟩,
         ⟨Pair.btc, true, 100, 90, 1, 12⟩, ⟨Pair.btc, true, 100, 90, 1, 13⟩,
         ⟨Pair.btc, true, 100, 90, 1, 70000⟩] 86500 15000 5 6 = false ∧
    ((86500 - 70000 : ℤ) : ℚ) < 6 * 3600 := by
  have hbb : decide (Pair.btc = Pair.btc) = true := rfl
  refine ⟨?_, ?_, by norm_num⟩
  · (norm_num [Executor.check_circuit_breaker, Executor.cb_events,
      Executor.cb_sort, Executor.cb_collect, Executor.cb_insert,
      Executor.consecutive_losses, Executor.cb_last, List.filter, hbb,
      List.takeWhile]) <;> simp
  · (norm_num [Executor.check_circuit_breaker, Executor.cb_events,
      Executor.cb_sort, Executor.cb_collect, Executor.cb_insert,
      Executor.consecutive_losses, Executor.cb_last, List.filter, hbb,
      List.takeWhile]) <;> simp

/--
C3 (amended): on a non-empty trailing-24h window of closed positions, the
breaker trips iff (a) the window's realized PnL is below `-daily_loss_limit`,
or (b) the backward loss streak reaches `max_consecutive_losses`, or (c) the
streak is exactly one below the maximum and the most recent closed trade —
which is then a loss — closed within the cooldown window.  Consequently it
remains tripped through the cooldown window as long as the trailing-24h
window still shows a streak of at least `max − 1`; once older streak losses
age past 24 hours it can release before the cooldown ends (see the
counterexample).  A tripped breaker affects only BUY processing: SELL
processing is identical with the breaker tripped or not, and a BUY with the
breaker tripped leaves the state unchanged.
-/
theorem C3_circuit_breaker (cfg : List Pair) (recs : List Executor.PosRecord)
    (now : ℤ) (lossLimit : ℚ) (maxLosses : ℕ) (cd : ℚ)
    (hne : Executor.cb_collect cfg recs now ≠ []) (hmax : 2 ≤ maxLosses) :
    (Executor.check_circuit_breaker cfg recs now lossLimit maxLosses cd = true ↔
      (((Executor.cb_events cfg recs now).map (fun e => e.pnl)).sum < -lossLimit ∨
        maxLosses ≤ Executor.consecutive_losses (Executor.cb_events cfg recs now) ∨
        (Executor.consecutive_losses (Executor.cb_events cfg recs now) + 1 = maxLosses ∧
          ((now - (Executor.cb_last (Executor.cb_events cfg recs now)).exit_time : ℤ) : ℚ) <
            cd * 3600)))
    ∧ (maxLosses ≤ Executor.consecutive_losses (Executor.cb_events cfg recs now) + 1 →
        ((now - (Executor.cb_last (Executor.cb_events cfg recs now)).exit_time : ℤ) : ℚ) <
          cd * 3600 →
        Executor.check_circuit_breaker cfg recs now lossLimit maxLosses cd = true)
    ∧ (Executor.consecutive_losses (Executor.cb_events cfg recs now) + 1 = maxLosses →
        (Executor.cb_last (Executor.cb_events cfg recs now)).pnl < 0)
    ∧ (∀ (s : Executor.ExecState) (o : Executor.OrderRec), o.signal = Sig.SELL →
        Executor.process_order true s o = Executor.process_order false s o)
    ∧ (∀ (s : Executor.ExecState) (o : Executor.OrderRec), o.signal = Sig.BUY →
        Executor.process_order true s o = s) := by
  have hiff := Executor.cb_check_iff cfg recs now lossLimit maxLosses cd hne
  refine ⟨hiff, ?_, ?_, ?_, ?_⟩
  · intro hs hc
    apply hiff.mpr
    rcases le_or_lt maxLosses (Executor.consecutive_losses (Executor.cb_events cfg recs now))
      with h | h
    · exact Or.inr (Or.inl h)
    · exact Or.inr (Or.inr ⟨by omega, hc⟩)
  · intro hE
    exact Executor.cb_last_loss _ (by omega)
  · intro s o hsig
    rcases o with ⟨pr, sig, ok, fa, fp, ft, so⟩
    cases hsig
    rcases hlo : Executor.lookupOpen s.openPos pr with _ | amt <;>
      simp [Executor.process_order, hlo]
  · intro s o hsig
    rcases o with ⟨pr, sig, ok, fa, fp, ft, so⟩
    cases hsig
    rcases hlo : Executor.lookupOpen s.openPos pr with _ | amt <;>
      simp [Executor.process_order, hlo]

/-- C3 witness: the amended theorem applied to a single closed loss of ¥10
against a daily loss limit of ¥5 — the breaker trips on condition (a). -/
theorem C3_circuit_breaker_witness :
    (Executor.cb_collect [Pair.btc] [⟨Pair.btc, true, 100, 90, 1, 1000⟩] 2000 ≠ [] ∧
      2 ≤ 5) ∧
    Executor.check_circuit_breaker [Pair.btc]
      [⟨Pair.btc, true, 100, 90, 1, 1000⟩] 2000 5 5 6 = true := by
  have hbb : decide (Pair.btc = Pair.btc) = true := rfl
  have hne : Executor.cb_collect [Pair.btc]
      [⟨Pair.btc, true, 100, 90, 1, 1000⟩] 2000 ≠ [] := by
    norm_num [Executor.cb_collect, List.filter, hbb]
  refine ⟨⟨hne, by norm_num⟩, ?_⟩
  apply (C3_circuit_breaker [Pair.btc] [⟨Pair.btc, true, 100, 90, 1, 1000⟩]
    2000 5 5 6 hne (by norm_num)).1.mpr
  apply Or.inl
  norm_num [Executor.cb_events, Executor.cb_sort, Executor.cb_collect,
    Executor.cb_insert, List.filter, hbb]

/-! ## Helper lemmas: execution guard (C1) -/

namespace Executor

lemma lookupOpen_cons_of_ne (l : List (Pair × ℚ)) {q p : Pair} (a : ℚ) (h : q ≠ p) :
    lookupOpen ((q, a) :: l) p = lookupOpen l p := by
  simp [lookupOpen, List.find?_cons, h]

lemma lookupOpen_cons_self (l : List (Pair × ℚ)) (p : Pair) (a : ℚ) :
    lookupOpen ((p, a) :: l) p = some a := by
  simp [lookupOpen, List.find?_cons]

lemma lookupOpen_filter_ne (l : List (Pair × ℚ)) {p q : Pair} (h : p ≠ q) :
    lookupOpen (l.filter (fun e => decide (e.1 ≠ q))) p = lookupOpen l p := by
  induction l with
  | nil => rfl
  | cons x xs ih =>
      rcases x with ⟨x1, x2⟩
      rw [List.filter_cons]
      by_cases hx : x1 = q
      · rw [if_neg (by simp [hx])]
        rw [ih]
        have hx1p : x1 ≠ p := fun e => h (by rw [← e, hx])
        rw [lookupOpen_cons_of_ne _ _ hx1p]
      · rw [if_pos (by simp [hx])]
        by_cases hxp : x1 = p
        · subst hxp
          rw [lookupOpen_cons_self, lookupOpen_cons_self]
        · rw [lookupOpen_cons_of_ne _ _ hxp, lookupOpen_cons_of_ne _ _ hxp, ih]

lemma noSellAfterBuyB_append_of_ne (p : Pair) (l : List Fill) (f : Fill)
    (hf : f ≠ Fill.sell p) (hl : noSellAfterBuyB p l = true) :
    noSellAfterBuyB p (l ++ [f]) = true := by
  induction l with
  | nil =>
      cases f with
      | buy q => simp [noSellAfterBuyB]
      | sell q =>
          have : q ≠ p := fun e => hf (by rw [e])
          simp [noSellAfterBuyB]
  | cons x xs ih =>
      cases x with
      | buy q =>
          simp only [noSellAfterBuyB, List.cons_append, Bool.and_eq_true] at hl ⊢
          refine ⟨?_, ih hl.2⟩
          by_cases hq : q = p
          · rw [if_pos hq] at hl ⊢
            have h1 := hl.1
            simp only [Bool.not_eq_true', decide_eq_false_iff_not] at h1 ⊢
            intro hmem
            rcases List.mem_append.mp hmem with hmem | hmem
            · exact h1 hmem
            · rw [List.mem_singleton] at hmem
              exact hf hmem.symm
          · rw [if_neg hq]
      | sell q =>
          simp only [noSellAfterBuyB, List.cons_append] at hl ⊢
          exact ih hl

lemma noSellAfterBuyB_append_sell (p : Pair) (l : List Fill)
    (hl : noSellAfterBuyB p l = true) (hb : Fill.buy p ∉ l) :
    noSellAfterBuyB p (l ++ [Fill.sell p]) = true := by
  induction l with
  | nil => rfl
  | cons x xs ih =>
      cases x with
      | buy q =>
          have hq : q ≠ p := fun e => hb (by rw [e]; exact List.mem_cons_self _ _)
          simp only [noSellAfterBuyB, List.cons_append, Bool.and_eq_true] at hl ⊢
          exact ⟨by rw [if_neg hq],
            ih hl.2 (fun hm => hb (List.mem_cons_of_mem _ hm))⟩
      | sell q =>
          simp only [noSellAfterBuyB, List.cons_append] at hl ⊢
          exact ih hl (fun hm => hb (List.mem_cons_of_mem _ hm))

/-- The batch invariant behind the execution guard: whenever this batch has
already placed a BUY fill for `p`, either `p` is flagged in
`_just_bought_pairs` or no open position for `p` exists (its bookkeeping
failed at the position save); and no SELL fill for `p` follows a BUY fill
for `p` in the batch's fill log. -/
def ExecInv (p : Pair) (s : ExecState) : Prop :=
  (Fill.buy p ∈ s.fills → (p ∈ s.justBought ∨ lookupOpen s.openPos p = none)) ∧
    noSellAfterBuyB p s.fills = true

lemma execute_buy_inv (p : Pair) (o : OrderRec) (s : ExecState)
    (ho : o.pair = p → (o.failPos = true ∨ o.failTrade = false))
    (hopen : lookupOpen s.openPos o.pair = none)
    (hinv : ExecInv p s) : ExecInv p (execute_buy s o) := by
  obtain ⟨hguard, hnsab⟩ := hinv
  have hbuy_ne_sell : (Fill.buy o.pair) ≠ Fill.sell p := fun h => Fill.noConfusion h
  simp only [execute_buy]
  split_ifs with h1 h2 h3 h4 <;> dsimp only [ExecInv]
  · exact ⟨hguard, hnsab⟩
  · exact ⟨hguard, hnsab⟩
  -- h3 : o.failPos = true — fill placed, position save failed
  · refine ⟨?_, noSellAfterBuyB_append_of_ne p s.fills _ hbuy_ne_sell hnsab⟩
    intro hmem
    rcases List.mem_append.mp hmem with hmem | hmem
    · exact hguard hmem
    · rw [List.mem_singleton] at hmem
      have hpq : o.pair = p := by
        injection hmem with h
        exact h.symm
      exact Or.inr (hpq ▸ hopen)
  -- ¬failPos, h4 : o.failTrade = true — excluded for o.pair = p by ho
  · have hne : o.pair ≠ p := by
      intro he
      rcases ho he with hfp | hft
      · rw [hfp] at h3; exact h3 rfl
      · rw [hft] at h4; exact Bool.noConfusion h4
    refine ⟨?_, noSellAfterBuyB_append_of_ne p s.fills _ hbuy_ne_sell hnsab⟩
    intro hmem
    rcases List.mem_append.mp hmem with hmem | hmem
    · rcases hguard hmem with hjb | hop
      · exact Or.inl hjb
      · exact Or.inr (by rw [lookupOpen_cons_of_ne _ _ hne]; exact hop)
    · rw [List.mem_singleton] at hmem
      refine absurd ?_ hne
      injection hmem with h
      exact h.symm
  -- ¬failPos ¬failTrade — bookkeeping fully succeeded
  · refine ⟨?_, noSellAfterBuyB_append_of_ne p s.fills _ hbuy_ne_sell hnsab⟩
    intro hmem
    by_cases hpq : o.pair = p
    · exact Or.inl (by rw [hpq] at *; exact List.mem_cons_self _ _)
    · rcases List.mem_append.mp hmem with hmem | hmem
      · rcases hguard hmem with hjb | hop
        · exact Or.inl (List.mem_cons_of_mem _ hjb)
        · exact Or.inr (by rw [lookupOpen_cons_of_ne _ _ hpq]; exact hop)
      · rw [List.mem_singleton] at hmem
        refine absurd ?_ hpq
        injection hmem with h
        exact h.symm

lemma process_order_inv (cb : Bool) (p : Pair) (o : OrderRec)
    (ho : o.pair = p → o.signal = Sig.BUY → (o.failPos = true ∨ o.failTrade = false))
    (s : ExecState) (hinv : ExecInv p s) : ExecInv p (process_order cb s o) := by
  obtain ⟨hguard, hnsab⟩ := hinv
  simp only [process_order]
  cases hsig : o.signal with
  | HOLD => exact ⟨hguard, hnsab⟩
  | BUY =>
      dsimp only
      rcases hlo : lookupOpen s.openPos o.pair with _ | amt
      · dsimp only
        cases cb
        · rw [if_neg Bool.false_ne_true]
          exact execute_buy_inv p o s (fun hp => ho hp hsig) hlo ⟨hguard, hnsab⟩
        · rw [if_pos rfl]
          exact ⟨hguard, hnsab⟩
      · exact ⟨hguard, hnsab⟩
  | SELL =>
      dsimp only
      rcases hlo : lookupOpen s.openPos o.pair with _ | amt
      · exact ⟨hguard, hnsab⟩
      · dsimp only
        by_cases hjb : o.pair ∈ s.justBought
        · rw [if_pos hjb]
          exact ⟨hguard, hnsab⟩
        · rw [if_neg hjb]
          simp only [execute_sell]
          by_cases hok : o.sellOk = false
          · rw [if_pos hok]
            exact ⟨hguard, hnsab⟩
          · rw [if_neg hok]
            dsimp only [ExecInv]
            have hsell_ne_buy : ∀ f, f ∈ [Fill.sell o.pair] → f ≠ Fill.buy p := by
              intro f hf
              rw [List.mem_singleton] at hf
              rw [hf]
              exact fun h => Fill.noConfusion h
            constructor
            · intro hmem
              rcases List.mem_append.mp hmem with hmem | hmem
              · rcases hguard hmem with hjbm | hop
                · exact Or.inl hjbm
                · by_cases hpq : p = o.pair
                  · rw [hpq] at hop
                    rw [hlo] at hop
                    exact absurd hop (Option.some_ne_none amt)
                  · exact Or.inr (by rw [lookupOpen_filter_ne _ hpq]; exact hop)
              · exact absurd rfl (hsell_ne_buy _ hmem)
            · by_cases hpq : o.pair = p
              · subst hpq
                have hnb : Fill.buy o.pair ∉ s.fills := by
                  intro hb
                  rcases hguard hb with hjbm | hop
                  · exact hjb hjbm
                  · rw [hlo] at hop
                    exact absurd hop (Option.some_ne_none amt)
                exact noSellAfterBuyB_append_sell _ s.fills hnsab hnb
              · refine noSellAfterBuyB_append_of_ne p s.fills _ ?_ hnsab
                intro h
                injection h with h2
                exact hpq h2

lemma countP_append_single (l : List Fill) (f : Fill) (pr : Fill → Bool) :
    (l ++ [f]).countP pr = l.countP pr + (if pr f = true then 1 else 0) := by
  rw [List.countP_append]
  by_cases h : pr f = true
  · rw [if_pos h]
    simp [List.countP_cons, h]
  · rw [if_neg h]
    simp [List.countP_cons, h]

lemma execute_buy_fills (s : ExecState) (o : OrderRec) :
    (execute_buy s o).fills = s.fills ∨
      (execute_buy s o).fills = s.fills ++ [Fill.buy o.pair] := by
  simp only [execute_buy]
  split_ifs <;> simp

lemma process_order_fills (cb : Bool) (s : ExecState) (o : OrderRec) :
    (process_order cb s o).fills = s.fills ∨
      (o.signal = Sig.BUY ∧ (process_order cb s o).fills = s.fills ++ [Fill.buy o.pair]) ∨
      (process_order cb s o).fills = s.fills ++ [Fill.sell o.pair] := by
  simp only [process_order]
  cases hsig : o.signal with
  | HOLD => exact Or.inl rfl
  | BUY =>
      dsimp only
      rcases lookupOpen s.openPos o.pair with _ | amt
      · dsimp only
        cases cb
        · rw [if_neg Bool.false_ne_true]
          rcases execute_buy_fills s o with h | h
          · exact Or.inl h
          · exact Or.inr (Or.inl ⟨rfl, h⟩)
        · rw [if_pos rfl]
          exact Or.inl rfl
      · exact Or.inl rfl
  | SELL =>
      dsimp only
      rcases lookupOpen s.openPos o.pair with _ | amt
      · exact Or.inl rfl
      · dsimp only
        by_cases hjb : o.pair ∈ s.justBought
        · rw [if_pos hjb]
          exact Or.inl rfl
        · rw [if_neg hjb]
          simp only [execute_sell]
          by_cases hok : o.sellOk = false
          · rw [if_pos hok]
            exact Or.inl rfl
          · rw [if_neg hok]
            exact Or.inr (Or.inr rfl)

lemma process_order_buy_count (cb : Bool) (s : ExecState) (o : OrderRec) (p : Pair) :
    ((process_order cb s o).fills).countP (fun f => decide (f = Fill.buy p)) ≤
      s.fills.countP (fun f => decide (f = Fill.buy p)) +
        (if (decide (o.pair = p) && decide (o.signal = Sig.BUY)) = true then 1 else 0) := by
  rcases process_order_fills cb s o with h | ⟨hsig, h⟩ | h
  · rw [h]
    exact Nat.le_add_right _ _
  · rw [h, countP_append_single]
    by_cases hpq : o.pair = p
    · rw [if_pos (by simp [hpq, hsig])]
      simp [hpq, hsig]
    · have hd : (decide (Fill.buy o.pair = Fill.buy p)) = false := by
        simp [hpq]
      simp only [hd]
      simp
  · rw [h, countP_append_single]
    have hd : (decide (Fill.sell o.pair = Fill.buy p)) = false := by
      simp
    simp only [hd]
    simp [Nat.le_add_right]

lemma foldl_buy_count (cb : Bool) (p : Pair) (b : List OrderRec) :
    ∀ s : ExecState,
      ((b.foldl (process_order cb) s).fills).countP (fun f => decide (f = Fill.buy p)) ≤
        s.fills.countP (fun f => decide (f = Fill.buy p)) +
          b.countP (fun o => decide (o.pair = p) && decide (o.signal = Sig.BUY)) := by
  induction b with
  | nil =>
      intro s
      simp
  | cons o rest ih =>
      intro s
      rw [List.foldl_cons, List.countP_cons]
      have h1 := ih (process_order cb s o)
      have h2 := process_order_buy_count cb s o p
      omega

lemma foldl_inv (cb : Bool) (p : Pair) (b : List OrderRec) :
    ∀ s : ExecState,
      (∀ o ∈ b, o.pair = p → o.signal = Sig.BUY →
        (o.failPos = true ∨ o.failTrade = false)) →
      ExecInv p s → ExecInv p (b.foldl (process_order cb) s) := by
  induction b with
  | nil =>
      intro s _ hs
      exact hs
  | cons o rest ih =>
      intro s hfail hs
      rw [List.foldl_cons]
      exact ih _ (fun o' ho' => hfail o' (List.mem_cons_of_mem _ ho'))
        (process_order_inv cb p o (hfail o (List.mem_cons_self _ _)) s hs)

end Executor

/-! ## Claim C1: execution guard (at-most-once BUY, same-batch SELL veto) -/

/-- **C1, counterexample.** The SELL-veto half of the guard fails in the
`save_trade`-failure window: a BUY whose `save_position` succeeds but whose
`save_trade` raises leaves the open position recorded while
`_just_bought_pairs` is never updated (the exception aborts `execute_buy`
before line 538), so a SELL for the same instrument later in the same batch
sees an open position, passes the `_just_bought_pairs` check, and sells —
the batch produces a BUY fill followed by a SELL fill for the same
instrument. -/
theorem C1_counterexample :
    (Executor.handler false ⟨[], [], [], []⟩
        [⟨Pair.eth, Sig.BUY, true, 1, false, true, true⟩,
         ⟨Pair.eth, Sig.SELL, true, 0, false, false, true⟩]).fills
      = [Executor.Fill.buy Pair.eth, Executor.Fill.sell Pair.eth] ∧
    Executor.noSellAfterBuyB Pair.eth
      (Executor.handler false ⟨[], [], [], []⟩
        [⟨Pair.eth, Sig.BUY, true, 1, false, true, true⟩,
         ⟨Pair.eth, Sig.SELL, true, 0, false, false, true⟩]).fills = false := by
  constructor <;> rfl

/-- **C1.** Execution guard, amended. The handler processes a decision batch
in a single pass and never re-raises a bookkeeping exception into a retry
path, so when the batch carries at most one BUY record per instrument (as
decision batches do — one signal per pair), at most one BUY fill is produced
for that instrument. The same-batch SELL veto additionally requires that any
BUY record for the instrument either fails before `save_position` completes
or completes `save_trade` (so `_just_bought_pairs` is in sync): under that
hypothesis no SELL fill for the instrument follows a BUY fill for it in the
batch. (Without it the veto fails — see the counterexample.) -/
theorem C1_execution_guard (cb : Bool) (s0 : Executor.ExecState)
    (batch : List Executor.OrderRec) (p : Pair)
    (hbatch : batch.countP
      (fun o => decide (o.pair = p) && decide (o.signal = Sig.BUY)) ≤ 1)
    (hfail : ∀ o ∈ batch, o.pair = p → o.signal = Sig.BUY →
      (o.failPos = true ∨ o.failTrade = false)) :
    ((Executor.handler cb s0 batch).fills).countP
        (fun f => decide (f = Executor.Fill.buy p)) ≤ 1 ∧
      Executor.noSellAfterBuyB p (Executor.handler cb s0 batch).fills = true := by
  have hinv : Executor.ExecInv p { s0 with justBought := [], fills := [] } := by
    constructor
    · intro h
      exact absurd h (List.not_mem_nil _)
    · rfl
  constructor
  · have hc := Executor.foldl_buy_count cb p batch { s0 with justBought := [], fills := [] }
    unfold Executor.handler
    have h0 : (({ s0 with justBought := [], fills := [] } :
        Executor.ExecState).fills).countP (fun f => decide (f = Executor.Fill.buy p)) = 0 := rfl
    omega
  · exact (Executor.foldl_inv cb p batch _ hfail hinv).2

/-- **C1, witness.** A batch with one BUY record (whose `save_position`
raises) followed by a SELL record for the same instrument satisfies both
guard conclusions. -/
theorem C1_execution_guard_witness :
    ((Executor.handler false ⟨[], [], [], []⟩
        [⟨Pair.btc, Sig.BUY, true, 1, true, false, true⟩,
         ⟨Pair.btc, Sig.SELL, true, 0, false, false, true⟩]).fills).countP
        (fun f => decide (f = Executor.Fill.buy Pair.btc)) ≤ 1 ∧
      Executor.noSellAfterBuyB Pair.btc
        (Executor.handler false ⟨[], [], [], []⟩
          [⟨Pair.btc, Sig.BUY, true, 1, true, false, true⟩,
           ⟨Pair.btc, Sig.SELL, true, 0, false, false, true⟩]).fills = true :=
  C1_execution_guard false ⟨[], [], [], []⟩
    [⟨Pair.btc, Sig.BUY, true, 1, true, false, true⟩,
     ⟨Pair.btc, Sig.SELL, true, 0, false, false, true⟩]
    Pair.btc (by decide) (by decide)

/-! ## Claim C10: position initialization defaults -/

/--
C10 (confirmed): every position saved on a successful BUY fill carries
`stop_loss = entry × 0.95`, `take_profit = entry × 1.10` and `closed = False`;
the position monitor falls back to exactly the same defaults when a stored
position lacks these fields; and the trailing-stop ratchet starts from the
5%-below-entry stop (the initial monitor state for an entry uses
`entry × 0.95` as its stop and `entry` as its peak).
-/
theorem C10_position_defaults :
    (∀ (ts : ℤ) (amount rate : ℚ),
      (Executor.save_position ts amount rate).stop_loss =
          (Executor.save_position ts amount rate).entry_price * 0.95 ∧
        (Executor.save_position ts amount rate).take_profit =
          (Executor.save_position ts amount rate).entry_price * 1.10 ∧
        (Executor.save_position ts amount rate).closed = false)
    ∧ (∀ e : ℚ,
        Executor.monitor_read_stop_loss ⟨e, none, none⟩ = e * 0.95 ∧
        Executor.monitor_read_take_profit ⟨e, none, none⟩ = e * 1.10)
    ∧ (∀ e : ℚ, (Monitor.monitor_init e).stop_loss = e * 0.95 ∧
        (Monitor.monitor_init e).highest_price = e) :=
  ⟨fun _ _ _ => ⟨rfl, rfl, rfl⟩, fun _ => ⟨rfl, rfl⟩, fun _ => ⟨rfl, rfl⟩⟩

end CryptoTrader
